import Mathlib

/-!
# Verification of the email-intel-hub threat-scoring pipeline

Shallow embedding of the rule-based email threat classifier
(`src/email-intel-agent.js`, `src/email-parser.js`, configuration in
`src/unnamed/part_003`).  JavaScript strings are modelled as lists of
characters (`Str`), JavaScript numbers as rationals (`ℚ`), `undefined`
and `null` as `Option`, and thrown exceptions as `Except`.
-/

/-! ## The embedded program: definitions -/

/-- JS strings, modelled as lists of characters. -/
abbrev Str := List Char

/-- The ASCII upper-to-lower mapping table. -/
def lowerPairs : List (Char × Char) :=
  [('A','a'),('B','b'),('C','c'),('D','d'),('E','e'),('F','f'),('G','g'),
   ('H','h'),('I','i'),('J','j'),('K','k'),('L','l'),('M','m'),('N','n'),
   ('O','o'),('P','p'),('Q','q'),('R','r'),('S','s'),('T','t'),('U','u'),
   ('V','v'),('W','w'),('X','x'),('Y','y'),('Z','z')]

/-- ASCII lower-casing of one character, as performed by JS
`String.prototype.toLowerCase` on the ASCII inputs used here. -/
def lowerChar (c : Char) : Char :=
  match lowerPairs.find? (fun p => decide (p.1 = c)) with
  | some p => p.2
  | none => c

/-- JS `s.toLowerCase()`. -/
def jsToLower (s : Str) : Str := s.map lowerChar

/-- JS `hay.includes(sub)`: substring containment. -/
def jsIncludes (hay sub : Str) : Bool := decide (sub <:+: hay)

/-- JS whitespace, restricted to the characters relevant here. -/
def isWsChar (c : Char) : Bool := c = ' ' ∨ c = '\t' ∨ c = '\n' ∨ c = '\r'

/-- JS `s.split(sep)` for a one-character separator. -/
def jsSplit (sep : Char) : Str → List Str
  | [] => [[]]
  | c :: cs =>
    match jsSplit sep cs with
    | [] => [[c]]
    | l :: ls => if c = sep then [] :: l :: ls else (c :: l) :: ls

/-- Split a string at the first occurrence of `sep` (a substring),
returning the parts before and after it; `none` when `sep` is absent. -/
def splitOnSub (sep : Str) : Str → Option (Str × Str)
  | [] => if sep = [] then some ([], []) else none
  | c :: cs =>
    if sep.isPrefixOf (c :: cs) then some ([], (c :: cs).drop sep.length)
    else (splitOnSub sep cs).map (fun p => (c :: p.1, p.2))

/-- JS `s.lastIndexOf(c)`. -/
def lastIndexOfChar (c : Char) (s : Str) : Option Nat :=
  (s.reverse.findIdx? (fun x => decide (x = c))).map (fun i => s.length - 1 - i)

namespace CONFIG

/-- Model of `CONFIG.AI.THREAT_CONFIDENCE_THRESHOLD` (part_003 line 63). -/
def THREAT_CONFIDENCE_THRESHOLD : ℚ := 7/10

/-- Model of `CONFIG.THREATS.PHISHING_KEYWORDS`. -/
def PHISHING_KEYWORDS : List Str :=
  [("urgent".data), ("immediate".data), ("verify".data), ("suspend".data),
   ("click here".data), ("act now".data), ("limited time".data), ("expires".data),
   ("confirm".data), ("update".data), ("security alert".data),
   ("account locked".data), ("unusual activity".data), ("verify identity".data)]

/-- Model of `CONFIG.THREATS.SUSPICIOUS_DOMAINS`. -/
def SUSPICIOUS_DOMAINS : List Str :=
  [("bit.ly".data), ("tinyurl.com".data), ("goo.gl".data), ("t.co".data)]

/-- Model of `CONFIG.THREATS.MALWARE_EXTENSIONS`. -/
def MALWARE_EXTENSIONS : List Str :=
  [(".exe".data), (".scr".data), (".bat".data), (".cmd".data), (".com".data),
   (".pif".data), (".vbs".data), (".js".data), (".jar".data), (".zip".data),
   (".rar".data), (".7z".data), (".docm".data), (".xlsm".data), (".pptm".data)]

end CONFIG

/-- Model of `CONFIG.AI.CATEGORIES`. -/
inductive Category where
  | phishing | spam | malware | social_engineering | bec | legitimate | unknown
deriving Repr, DecidableEq

/-- Model of `CONFIG.AI.RISK_LEVELS`. -/
inductive RiskLevel where
  | low | medium | high | critical
deriving Repr, DecidableEq

/-- One attachment of a parsed email. -/
structure Attachment where
  filename : Str
deriving Repr, DecidableEq

/-- The metadata object attached to a parsed email by the parser. -/
structure EmailMetadata where
  emailAddresses : List Str := []
  urls : List Str := []
  ipAddresses : List Str := []
  domains : List Str := []
deriving Repr, DecidableEq

/-- A parsed email as consumed by the detectors: a header dictionary
(JS object, modelled as an association list), a body, attachments and
derived metadata. -/
structure Email where
  headers : List (Str × Str)
  body : Str
  attachments : List Attachment := []
  metadata : EmailMetadata := {}
deriving Repr, DecidableEq

/-- JS property access `email.headers[k]`: `none` models `undefined`. -/
def getHeader (e : Email) (k : Str) : Option Str :=
  (e.headers.find? (fun p => decide (p.1 = k))).map (fun p => p.2)

/-- Model of `email.headers.subject || ''` (both `undefined` and `''` give `''`). -/
def subjectOrEmpty (e : Email) : Str := (getHeader e ("subject".data)).getD []

/-- Result record produced by each of the five detectors. -/
structure DetectorResult where
  detected : Bool
  confidence : ℚ
  indicators : List Str
deriving Repr, DecidableEq

/-- Model of `levenshteinDistance` (agent lines 756-782).  The source fills the
standard dynamic-programming matrix; this is the textbook recursive
characterisation of the same edit distance. -/
def levenshteinDistance : Str → Str → Nat
  | [], t => t.length
  | s, [] => s.length
  | a :: s, b :: t =>
    if a = b then levenshteinDistance s t
    else 1 + min (levenshteinDistance (a :: s) t)
              (min (levenshteinDistance s (b :: t)) (levenshteinDistance s t))
termination_by s t => s.length + t.length
decreasing_by all_goals simp +arith

/-- Model of `calculateStringSimilarity` (agent lines 745-754). -/
def calculateStringSimilarity (s1 s2 : Str) : ℚ :=
  let longer := if s1.length > s2.length then s1 else s2
  let shorter := if s1.length > s2.length then s2 else s1
  if longer.length = 0 then 1
  else ((longer.length : ℚ) - levenshteinDistance longer shorter) / longer.length

/-- Model of `isSpoofedDomain` (agent lines 716-724). -/
def isSpoofedDomain (domain : Str) : Bool :=
  let legitimateDomains : List Str :=
    [("google.com".data), ("microsoft.com".data), ("apple.com".data), ("amazon.com".data)]
  legitimateDomains.any (fun legit =>
    let similarity := calculateStringSimilarity domain legit
    decide (similarity > 8/10) && decide (similarity < 1))

/-- Hostname/pathname view of a URL, as produced by JS `new URL`. -/
structure UrlObj where
  hostname : Str
  pathname : Str
deriving Repr, DecidableEq

/-- Model of JS `new URL(url)` for `scheme://host[:port]path` inputs
(the shape matched by the parser's URL regex); `none` models the
constructor throwing.  The hostname is lower-cased as per WHATWG. -/
def jsParseURL (url : Str) : Option UrlObj :=
  match splitOnSub ("://".data) url with
  | none => none
  | some (scheme, rest) =>
    let host := rest.takeWhile (fun c => ¬ (c = '/' ∨ c = '?' ∨ c = '#' ∨ c = ':'))
    let after := rest.drop host.length
    let afterPort :=
      if after.head? = some ':' then (after.drop 1).dropWhile (fun c => c.isDigit)
      else after
    let path := afterPort.takeWhile (fun c => ¬ (c = '?' ∨ c = '#'))
    if scheme = [] ∨ host = [] then none
    else some { hostname := jsToLower host
                pathname := if path = [] then ("/".data) else path }

/-- Model of `isSuspiciousURL` (agent lines 701-714). -/
def isSuspiciousURL (url : Str) : Bool :=
  match jsParseURL url with
  | some urlObj =>
      jsIncludes urlObj.hostname ("xn--".data) ||
      decide ((jsSplit '.' urlObj.hostname).length > 4) ||
      jsIncludes urlObj.pathname ("..".data)
  | none => true

/-- Model of `EmailParser.extractDomainFromEmail` (parser lines 364-369): the
regex `@([^>\s]+)` — everything after the first `@` up to `>` or
whitespace, lower-cased; `none` when there is no such nonempty run. -/
def extractDomainFromEmail (email : Str) : Option Str :=
  match splitOnSub ("@".data) email with
  | none => none
  | some (_, rest) =>
    let run := rest.takeWhile (fun c => ¬ (c = '>' ∨ isWsChar c))
    if run = [] then none else some (jsToLower run)

/-- Per-URL confidence contribution inside `detectPhishing`
(agent lines 338-360): suspicious-domain and suspicious-pattern
increments on successful parse, malformed-URL increment on failure. -/
def phishingUrlScore (url : Str) : ℚ :=
  match jsParseURL url with
  | some urlObj =>
      (if urlObj.hostname ∈ CONFIG.SUSPICIOUS_DOMAINS then 15/100 else 0) +
      (if isSuspiciousURL url then 2/10 else 0)
  | none => 1/10

/-- Spoofed-sender contribution inside `detectPhishing`
(agent lines 362-369). -/
def phishingSpoofScore (e : Email) : ℚ :=
  match getHeader e ("from".data) with
  | none => 0
  | some f =>
    if f = [] then 0  -- `if (email.headers.from)`: '' is falsy
    else
      match extractDomainFromEmail f with
      | some fromDomain => if isSpoofedDomain fromDomain then 3/10 else 0
      | none => 0

/-- The urgency word list hard-coded in `detectPhishing` (line 372). -/
def urgencyWords : List Str :=
  [("urgent".data), ("immediate".data), ("asap".data), ("expires".data), ("deadline".data)]

/-- Model of `detectPhishing` (agent lines 323-384). -/
def detectPhishing (e : Email) : DetectorResult :=
  let content := jsToLower (e.body ++ [' '] ++ subjectOrEmpty e)
  let kwConf : ℚ :=
    (CONFIG.PHISHING_KEYWORDS.map
      (fun kw => if jsIncludes content (jsToLower kw) then (1:ℚ)/10 else 0)).sum
  let urlConf : ℚ := (e.metadata.urls.map phishingUrlScore).sum
  let urgConf : ℚ :=
    (urgencyWords.map (fun w => if jsIncludes content w then (5:ℚ)/100 else 0)).sum
  let confidence := min 1 (kwConf + urlConf + phishingSpoofScore e + urgConf)
  { detected := decide (confidence ≥ CONFIG.THREAT_CONFIDENCE_THRESHOLD)
    confidence := confidence
    indicators :=
      CONFIG.PHISHING_KEYWORDS.filterMap
        (fun kw => if jsIncludes content (jsToLower kw)
                   then some (("Phishing keyword: ".data) ++ kw) else none) ++
      (e.metadata.urls.map (fun url =>
        match jsParseURL url with
        | some urlObj =>
            (if urlObj.hostname ∈ CONFIG.SUSPICIOUS_DOMAINS
             then [("Suspicious domain: ".data) ++ urlObj.hostname] else []) ++
            (if isSuspiciousURL url
             then [("Suspicious URL pattern: ".data) ++ url] else [])
        | none => [("Malformed URL: ".data) ++ url])).flatten ++
      (if phishingSpoofScore e ≠ 0 then [("Potential domain spoofing".data)] else []) ++
      urgencyWords.filterMap
        (fun w => if jsIncludes content w
                  then some (("Urgency indicator: ".data) ++ w) else none) }

/-- Model of `EmailParser.getFileExtension` (parser lines 46-48):
`filename.toLowerCase().substring(filename.lastIndexOf('.'))`; with no
dot, `substring(-1)` yields the whole lower-cased name. -/
def getFileExtension (filename : Str) : Str :=
  match lastIndexOfChar '.' filename with
  | some i => (jsToLower filename).drop i
  | none => jsToLower filename

/-- Model of `hasDoubleExtension` (agent lines 726-730). -/
def hasDoubleExtension (filename : Str) : Bool :=
  if filename = [] then false
  else
    let parts := jsSplit '.' filename
    decide (parts.length > 2) &&
      decide (('.' :: parts.getLast!) ∈ CONFIG.MALWARE_EXTENSIONS)

/-- Per-attachment contribution inside `detectMalware` (lines 392-407). -/
def malwareAttachmentScore (a : Attachment) : ℚ :=
  (if getFileExtension a.filename ∈ CONFIG.MALWARE_EXTENSIONS then (4:ℚ)/10 else 0) +
  (if hasDoubleExtension a.filename then (3:ℚ)/10 else 0)

/-- The keyword list hard-coded in `detectMalware` (line 410). -/
def malwareKeywords : List Str :=
  [("download".data), ("install".data), ("run".data), ("execute".data),
   ("macro".data), ("enable".data)]

/-- Model of `detectMalware` (agent lines 387-424). -/
def detectMalware (e : Email) : DetectorResult :=
  let content := jsToLower e.body
  let attConf : ℚ := (e.attachments.map malwareAttachmentScore).sum
  let kwConf : ℚ :=
    (malwareKeywords.map (fun kw => if jsIncludes content kw then (5:ℚ)/100 else 0)).sum
  let confidence := min 1 (attConf + kwConf)
  { detected := decide (confidence ≥ CONFIG.THREAT_CONFIDENCE_THRESHOLD)
    confidence := confidence
    indicators :=
      (e.attachments.map (fun a =>
        (if getFileExtension a.filename ∈ CONFIG.MALWARE_EXTENSIONS
         then [("Suspicious file extension: ".data) ++ getFileExtension a.filename] else []) ++
        (if hasDoubleExtension a.filename
         then [("Double extension detected: ".data) ++ a.filename] else []))).flatten ++
      malwareKeywords.filterMap
        (fun kw => if jsIncludes content kw
                   then some (("Malware keyword: ".data) ++ kw) else none) }

/-- Model of `calculateCapsRatio` (agent lines 732-737). -/
def calculateCapsRatio (text : Str) : ℚ :=
  let caps := text.filter (fun c => 'A' ≤ c ∧ c ≤ 'Z')
  let letters := text.filter (fun c => ('A' ≤ c ∧ c ≤ 'Z') ∨ ('a' ≤ c ∧ c ≤ 'z'))
  if letters.length > 0 then (caps.length : ℚ) / letters.length else 0

/-- Model of `calculatePunctuationRatio` (agent lines 739-743). -/
def calculatePunctuationRatio (text : Str) : ℚ :=
  let punctuation := text.filter
    (fun c => c = '!' ∨ c = '?' ∨ c = '.' ∨ c = ',' ∨ c = ';' ∨ c = ':')
  if text.length > 0 then (punctuation.length : ℚ) / text.length else 0

/-- The keyword list hard-coded in `detectSpam` (lines 434-438). -/
def spamKeywords : List Str :=
  [("free".data), ("win".data), ("winner".data), ("congratulations".data),
   ("prize".data), ("lottery".data), ("money".data), ("cash".data),
   ("earn".data), ("income".data), ("investment".data), ("guarantee".data),
   ("limited time".data), ("act now".data), ("call now".data), ("click here".data)]

/-- Model of `detectSpam` (agent lines 427-465). -/
def detectSpam (e : Email) : DetectorResult :=
  let content := jsToLower (e.body ++ [' '] ++ subjectOrEmpty e)
  let kwConf : ℚ :=
    (spamKeywords.map (fun kw => if jsIncludes content kw then (8:ℚ)/100 else 0)).sum
  let capsConf : ℚ := if calculateCapsRatio e.body > 3/10 then 2/10 else 0
  let punctConf : ℚ := if calculatePunctuationRatio e.body > 1/10 then 15/100 else 0
  let confidence := min 1 (kwConf + capsConf + punctConf)
  { detected := decide (confidence ≥ CONFIG.THREAT_CONFIDENCE_THRESHOLD)
    confidence := confidence
    indicators :=
      spamKeywords.filterMap
        (fun kw => if jsIncludes content kw
                   then some (("Spam keyword: ".data) ++ kw) else none) ++
      (if calculateCapsRatio e.body > 3/10 then [("Excessive capitalization".data)] else []) ++
      (if calculatePunctuationRatio e.body > 1/10 then [("Excessive punctuation".data)] else []) }

/-- The keyword lists hard-coded in `detectSocialEngineering` (lines 475-488). -/
def seKeywords : List Str :=
  [("verify".data), ("confirm".data), ("update".data), ("suspend".data),
   ("locked".data), ("security".data), ("unauthorized".data),
   ("unusual activity".data), ("click here".data), ("login".data)]

def authorityKeywords : List Str :=
  [("bank".data), ("paypal".data), ("amazon".data), ("microsoft".data),
   ("google".data), ("apple".data)]

/-- Model of `detectSocialEngineering` (agent lines 468-500). -/
def detectSocialEngineering (e : Email) : DetectorResult :=
  let content := jsToLower (e.body ++ [' '] ++ subjectOrEmpty e)
  let seConf : ℚ :=
    (seKeywords.map (fun kw => if jsIncludes content kw then (1:ℚ)/10 else 0)).sum
  let authConf : ℚ :=
    (authorityKeywords.map (fun kw => if jsIncludes content kw then (15:ℚ)/100 else 0)).sum
  let confidence := min 1 (seConf + authConf)
  { detected := decide (confidence ≥ CONFIG.THREAT_CONFIDENCE_THRESHOLD)
    confidence := confidence
    indicators :=
      seKeywords.filterMap
        (fun kw => if jsIncludes content kw
                   then some (("Social engineering keyword: ".data) ++ kw) else none) ++
      authorityKeywords.filterMap
        (fun kw => if jsIncludes content kw
                   then some (("Authority impersonation: ".data) ++ kw) else none) }

/-- The keyword lists hard-coded in `detectBEC` (lines 511-524). -/
def becKeywords : List Str :=
  [("wire transfer".data), ("payment".data), ("invoice".data),
   ("urgent payment".data), ("bank details".data), ("account change".data),
   ("vendor".data), ("supplier".data), ("ceo".data), ("president".data),
   ("urgent request".data)]

def executiveTitles : List Str :=
  [("ceo".data), ("cfo".data), ("president".data), ("director".data), ("manager".data)]

/-- Model of `detectBEC` (agent lines 503-538). -/
def detectBEC (e : Email) : DetectorResult :=
  let content := jsToLower e.body
  let subject := jsToLower (subjectOrEmpty e)
  let fromField := jsToLower ((getHeader e ("from".data)).getD [])
  let kwConf : ℚ :=
    (becKeywords.map
      (fun kw => if jsIncludes content kw || jsIncludes subject kw then (15:ℚ)/100 else 0)).sum
  let titleConf : ℚ :=
    (executiveTitles.map (fun t => if jsIncludes fromField t then (2:ℚ)/10 else 0)).sum
  let confidence := min 1 (kwConf + titleConf)
  { detected := decide (confidence ≥ CONFIG.THREAT_CONFIDENCE_THRESHOLD)
    confidence := confidence
    indicators :=
      becKeywords.filterMap
        (fun kw => if jsIncludes content kw || jsIncludes subject kw
                   then some (("BEC keyword: ".data) ++ kw) else none) ++
      executiveTitles.filterMap
        (fun t => if jsIncludes fromField t
                  then some (("Executive impersonation: ".data) ++ t) else none) }

/-- The invariant claimed for every detector result: confidence within
`[0,1]` and the detected flag equal to the threshold comparison. -/
def detectorOk (r : DetectorResult) : Prop :=
  0 ≤ r.confidence ∧ r.confidence ≤ 1 ∧
    r.detected = decide (r.confidence ≥ CONFIG.THREAT_CONFIDENCE_THRESHOLD)

/-- The word lists hard-coded in `analyzeSentiment` (lines 545-546). -/
def positiveWords : List Str :=
  [("good".data), ("great".data), ("excellent".data), ("amazing".data),
   ("wonderful".data), ("fantastic".data), ("love".data), ("like".data),
   ("happy".data), ("pleased".data)]

def negativeWords : List Str :=
  [("bad".data), ("terrible".data), ("awful".data), ("hate".data),
   ("dislike".data), ("angry".data), ("frustrated".data),
   ("disappointed".data), ("sad".data), ("upset".data)]

/-- JS `s.split(/\s+/)`: split on maximal whitespace runs (leading or
trailing runs produce an empty first or last element, as in JS). -/
def splitWsRuns (s : Str) : List Str :=
  match s with
  | [] => [[]]
  | c :: cs =>
    if isWsChar c then [] :: splitWsRuns (cs.dropWhile isWsChar)
    else
      match splitWsRuns cs with
      | [] => [[c]]
      | l :: ls => (c :: l) :: ls
termination_by s.length
decreasing_by
  · have := List.Sublist.length_le (List.dropWhile_sublist (l := cs) isWsChar)
    simp
    omega
  · simp

/-- Result record of `analyzeSentiment` (agent lines 541-567). -/
structure SentimentResult where
  score : ℚ
  positive : Nat
  negative : Nat
  neutral : Int
deriving Repr, DecidableEq

/-- Model of `analyzeSentiment` (agent lines 541-567). -/
def analyzeSentiment (e : Email) : SentimentResult :=
  let content := e.body
  let words := splitWsRuns (jsToLower content)
  let positiveScore := words.countP (fun w => decide (w ∈ positiveWords))
  let negativeScore := words.countP (fun w => decide (w ∈ negativeWords))
  let totalWords := words.length
  let sentiment : ℚ :=
    if totalWords > 0 then ((positiveScore : ℚ) - negativeScore) / totalWords else 0
  { score := max (-1) (min 1 sentiment)
    positive := positiveScore
    negative := negativeScore
    neutral := (totalWords : Int) - positiveScore - negativeScore }

/-- The `threats` object assembled by `assessThreats` (lines 295-320). -/
structure ThreatAssessment where
  phishing : DetectorResult
  malware : DetectorResult
  spam : DetectorResult
  socialEngineering : DetectorResult
  businessEmailCompromise : DetectorResult
deriving Repr, DecidableEq

/-- Model of `assessThreats` on the success path: run all five detectors. -/
def assessThreats (e : Email) : ThreatAssessment :=
  { phishing := detectPhishing e
    malware := detectMalware e
    spam := detectSpam e
    socialEngineering := detectSocialEngineering e
    businessEmailCompromise := detectBEC e }

/-- The five threat keys of the `threats` object. -/
inductive ThreatType where
  | phishing | malware | spam | socialEngineering | businessEmailCompromise
deriving Repr, DecidableEq

/-- Model of `threatWeights` (agent lines 641-647). -/
def threatWeight : ThreatType → ℚ
  | .phishing => 3/10
  | .malware => 25/100
  | .spam => 15/100
  | .socialEngineering => 2/10
  | .businessEmailCompromise => 1/10

/-- Model of `mapThreatToCategory` (agent lines 690-699). -/
def mapThreatToCategory : ThreatType → Category
  | .phishing => .phishing
  | .malware => .malware
  | .spam => .spam
  | .socialEngineering => .social_engineering
  | .businessEmailCompromise => .bec

/-- Model of `Object.entries(results.threatAssessment)` in insertion order of the
`threats` object built by `assessThreats`. -/
def ThreatAssessment.entries (t : ThreatAssessment) : List (ThreatType × DetectorResult) :=
  [(.phishing, t.phishing), (.malware, t.malware), (.spam, t.spam),
   (.socialEngineering, t.socialEngineering),
   (.businessEmailCompromise, t.businessEmailCompromise)]

/-- Accumulator of the `forEach` in `calculateOverallAssessment`. -/
structure AggState where
  riskScore : ℚ
  category : Category
  confidence : ℚ
deriving Repr, DecidableEq

/-- One iteration of the `forEach` in `calculateOverallAssessment`
(agent lines 649-659). -/
def aggStep (s : AggState) (p : ThreatType × DetectorResult) : AggState :=
  if p.2.detected then
    let s1 : AggState :=
      { s with riskScore := s.riskScore + p.2.confidence * threatWeight p.1 * 100 }
    if p.2.confidence > s.confidence then
      { s1 with category := mapThreatToCategory p.1, confidence := p.2.confidence }
    else s1
  else s

/-- The four fields computed by `calculateOverallAssessment` and spread
into the results object. -/
structure OverallAssessment where
  riskScore : ℚ
  riskLevel : RiskLevel
  category : Category
  confidence : ℚ
deriving Repr, DecidableEq

/-- The risk-level if-chain of `calculateOverallAssessment`
(agent lines 670-674). -/
def riskLevelOf (q : ℚ) : RiskLevel :=
  if q < 25 then RiskLevel.low
  else if q < 50 then RiskLevel.medium
  else if q < 75 then RiskLevel.high
  else RiskLevel.critical

/-- Model of `calculateOverallAssessment` (agent lines 635-683). -/
def calculateOverallAssessment (threats : ThreatAssessment)
    (senti : SentimentResult) : OverallAssessment :=
  let st := threats.entries.foldl aggStep
    { riskScore := 0, category := .legitimate, confidence := 0 }
  let risk1 := if senti.score < -(1/2) then st.riskScore + 10 else st.riskScore
  let riskScore := min 100 (max 0 risk1)
  { riskScore := riskScore
    riskLevel := riskLevelOf riskScore
    category := st.category
    confidence := st.confidence }

/-- The risk score exactly as claim C3's words describe it: the weighted
sum `confidence * weight * 100` over detected threats, with no sentiment
penalty and no clamping.  Stated from the spec, to be compared with
`calculateOverallAssessment`. -/
def claimedWeightedRiskScore (t : ThreatAssessment) : ℚ :=
  (t.entries.map
    (fun p => if p.2.detected then p.2.confidence * threatWeight p.1 * 100 else 0)).sum

/-- A detector result with nothing detected. -/
def allClearResult : DetectorResult :=
  { detected := false, confidence := 0, indicators := [] }

/-- A threat assessment with no detected threat. -/
def allClearThreats : ThreatAssessment :=
  { phishing := allClearResult, malware := allClearResult, spam := allClearResult
    socialEngineering := allClearResult, businessEmailCompromise := allClearResult }

/-- A very negative sentiment result (score −1 < −0.5). -/
def verySadSentiment : SentimentResult :=
  { score := -1, positive := 0, negative := 1, neutral := 0 }

/-- JS `ToInt32` wrap-around (`hash & hash` / `<< 5` coerce to a signed
32-bit integer). -/
def toInt32 (n : Int) : Int := (n + 2^31) % 2^32 - 2^31

/-- One step of the hash loop in `generateCacheKey` (lines 229-234):
`hash = ((hash << 5) - hash) + char; hash = hash & hash`. -/
def hashStep (h : Int) (c : Char) : Int := toInt32 (toInt32 (h * 32) - h + c.toNat)

/-- The full hash loop over the JSON content string. -/
def strHash (s : Str) : Int := s.foldl hashStep 0

/-- Model of `JSON.stringify` escaping of a string value, restricted to quote and
backslash (the only escapable characters relevant to this model). -/
def jsonEscape (s : Str) : Str :=
  (s.map (fun c => if c = '"' ∨ c = '\\' then ['\\', c] else [c])).flatten

/-- One `"name":"value"` field of the stringified cache-content object. -/
def jsonStrField (name : Str) (v : Str) : Str :=
  ['"'] ++ name ++ ['"', ':', '"'] ++ jsonEscape v ++ ['"']

/-- Model of `JSON.stringify({subject, from, body})` where `undefined` fields are
omitted (as `JSON.stringify` does). -/
def cacheContent (subject fromV body1000 : Option Str) : Str :=
  let fields := [(("subject".data : Str), subject), (("from".data : Str), fromV),
                 (("body".data : Str), body1000)]
  ['\x7b'] ++
    (List.intercalate [','] (fields.filterMap
      (fun p => p.2.map (fun v => jsonStrField p.1 v)))) ++ ['\x7d']

/-- Model of `generateCacheKey` (agent lines 221-236). -/
def generateCacheKey (e : Email) : Str :=
  let content := cacheContent (getHeader e ("subject".data)) (getHeader e ("from".data))
    (some (e.body.take 1000))
  ("email_".data) ++ ((strHash content).natAbs.repr.data)

/-- Model of `sanitizeEmailForStorage` (agent lines 239-250). -/
structure SanitizedEmail where
  subject : Str
  fromHdr : Str
  toHdr : Str
  dateHdr : Str
  body : Str
  attachments : Nat
deriving Repr, DecidableEq

def sanitizeEmailForStorage (e : Email) : SanitizedEmail :=
  { subject := (getHeader e ("subject".data)).getD []
    fromHdr := (getHeader e ("from".data)).getD []
    toHdr := (getHeader e ("to".data)).getD []
    dateHdr := (getHeader e ("date".data)).getD []
    body := e.body.take 5000
    attachments := e.attachments.length }

/-- The `results` object of an Analysis.  The error path (lines 202-216)
stores no threat assessment and sets `error`/`metadata.failed`. -/
structure AnalysisResults where
  threatAssessment : Option ThreatAssessment
  sentimentAnalysis : Option SentimentResult
  riskScore : ℚ
  riskLevel : Option RiskLevel
  category : Category
  confidence : ℚ
  error : Option Str
  failed : Bool
deriving Repr, DecidableEq

/-- One Analysis record. -/
structure Analysis where
  id : Str
  timestamp : Str
  email : SanitizedEmail
  results : AnalysisResults
deriving Repr, DecidableEq

/-- The mutable state of an `EmailIntelAgent` relevant to the claims:
the analysis cache (a JS `Map`, i.e. an insertion-ordered association
list with unique keys) and the statistics counters.
`averageProcessingTime` is wall-clock dependent and not modelled. -/
structure AgentState where
  analysisCache : List (Str × Analysis)
  cacheHits : Nat
  cacheMisses : Nat
  totalAnalyses : Nat
  threatDetections : Nat
deriving Repr, DecidableEq

/-- JS `Map.prototype.get`. -/
def mapGet (m : List (Str × Analysis)) (k : Str) : Option Analysis :=
  (m.find? (fun p => decide (p.1 = k))).map (fun p => p.2)

/-- JS `Map.prototype.set`: replace in place when the key exists
(keeping its insertion position), otherwise append. -/
def mapSet (m : List (Str × Analysis)) (k : Str) (v : Analysis) : List (Str × Analysis) :=
  match m with
  | [] => [(k, v)]
  | p :: rest => if p.1 = k then (k, v) :: rest else p :: mapSet rest k v

/-- JS `Map.prototype.delete` (keys are unique in a `Map`, so filtering
all occurrences of the key is the same as removing the entry). -/
def mapDelete (m : List (Str × Analysis)) (k : Str) : List (Str × Analysis) :=
  m.filter (fun p => decide (p.1 ≠ k))

/-- The fresh Analysis built on a cache miss (lines 114-196): detectors,
sentiment and aggregation; `newId` and `newTs` stand for the
wall-clock-dependent `generateAnalysisId()` and `new Date()`. -/
def buildAnalysis (e : Email) (newId newTs : Str) : Analysis :=
  let threats := assessThreats e
  let senti := analyzeSentiment e
  let overall := calculateOverallAssessment threats senti
  { id := newId
    timestamp := newTs
    email := sanitizeEmailForStorage e
    results :=
      { threatAssessment := some threats
        sentimentAnalysis := some senti
        riskScore := overall.riskScore
        riskLevel := some overall.riskLevel
        category := overall.category
        confidence := overall.confidence
        error := none
        failed := false } }

/-- Model of `analyzeEmail` on a well-formed email object (lines 101-196): check
the cache and return the stored Analysis on a hit (bumping the hit
counter); otherwise build, cache and return a fresh Analysis (bumping
the miss counter and the stats). -/
def analyzeEmailOk (st : AgentState) (e : Email) (newId newTs : Str) :
    Analysis × AgentState :=
  let cacheKey := generateCacheKey e
  match mapGet st.analysisCache cacheKey with
  | some cached => (cached, { st with cacheHits := st.cacheHits + 1 })
  | none =>
    let analysis := buildAnalysis e newId newTs
    (analysis,
      { st with
        cacheMisses := st.cacheMisses + 1
        analysisCache := mapSet st.analysisCache cacheKey analysis
        totalAnalyses := st.totalAnalyses + 1
        threatDetections :=
          st.threatDetections + (if analysis.results.riskScore > 50 then 1 else 0) })

/-- A concrete email used by witnesses. -/
def witnessEmail : Email :=
  { headers := [(("subject".data), ("Hello".data)), (("from".data), ("a@b.com".data))]
    body := ("Thanks for your help".data) }

/-- A fresh agent state (constructor, lines 13-32). -/
def initialAgentState : AgentState :=
  { analysisCache := [], cacheHits := 0, cacheMisses := 0
    totalAnalyses := 0, threatDetections := 0 }

/-- The sweep body of `setupCacheCleanup` (agent lines 75-85): when the
cache exceeds 1000 entries, delete the first (oldest-inserted)
`size - 1000` entries. -/
def cleanupCache (st : AgentState) : AgentState :=
  let maxCacheSize := 1000
  if st.analysisCache.length > maxCacheSize then
    let entries := st.analysisCache
    let toDelete := entries.take (entries.length - maxCacheSize)
    { st with analysisCache :=
        toDelete.foldl (fun cache p => mapDelete cache p.1) st.analysisCache }
  else st

/-- A trivial Analysis record used to populate witness caches. -/
def dummyAnalysis : Analysis :=
  { id := [], timestamp := []
    email := { subject := [], fromHdr := [], toHdr := [], dateHdr := []
               body := [], attachments := 0 }
    results := { threatAssessment := none, sentimentAnalysis := none
                 riskScore := 0, riskLevel := none, category := .unknown
                 confidence := 0, error := none, failed := true } }

/-- An agent state whose cache holds two distinct fingerprints. -/
def twoEntryState : AgentState :=
  { analysisCache := [(("a".data), dummyAnalysis), (("b".data), dummyAnalysis)]
    cacheHits := 0, cacheMisses := 2, totalAnalyses := 2, threatDetections := 0 }

/-- Model of `assessThreats` as awaited by `analyzeEmail` (agent lines 295-320):
the five detector computations run sequentially with **no per-detector
try/catch**, so the first rejection aborts the whole assessment. -/
def assessThreatsE (dp dm ds dse db : Except Str DetectorResult) :
    Except Str ThreatAssessment := do
  let phishing ← dp
  let malware ← dm
  let spam ← ds
  let socialEngineering ← dse
  let businessEmailCompromise ← db
  return { phishing := phishing, malware := malware, spam := spam
           socialEngineering := socialEngineering
           businessEmailCompromise := businessEmailCompromise }

/-- The `.catch` wrapped around `assessThreats` in `analyzeEmail`
(lines 139-142).  Its JS fallback object
`{detected:false, confidence:0, indicators:[], threats:{}}` has no
per-threat entries, so the aggregator's `Object.entries` loop finds
nothing detected in it; it behaves exactly like the all-clear
assessment, which is how we model it. -/
def threatComponent (r : Except Str ThreatAssessment) : ThreatAssessment :=
  match r with
  | .ok t => t
  | .error _ => allClearThreats

/-- A detector result reporting a detected threat with full confidence. -/
def highPhishingResult : DetectorResult :=
  { detected := true, confidence := 1, indicators := [] }

/-- Model of `analyzeEmail` with the five detector outcomes made explicit:
identical to `analyzeEmailOk` except that the threat assessment is the
caught combination of the given outcomes. -/
def analyzeEmailWithOutcomes (st : AgentState) (e : Email) (newId newTs : Str)
    (dp dm ds dse db : Except Str DetectorResult) : Analysis × AgentState :=
  let cacheKey := generateCacheKey e
  match mapGet st.analysisCache cacheKey with
  | some cached => (cached, { st with cacheHits := st.cacheHits + 1 })
  | none =>
    let threats := threatComponent (assessThreatsE dp dm ds dse db)
    let senti := analyzeSentiment e
    let overall := calculateOverallAssessment threats senti
    let analysis : Analysis :=
      { id := newId
        timestamp := newTs
        email := sanitizeEmailForStorage e
        results :=
          { threatAssessment := some threats
            sentimentAnalysis := some senti
            riskScore := overall.riskScore
            riskLevel := some overall.riskLevel
            category := overall.category
            confidence := overall.confidence
            error := none
            failed := false } }
    (analysis,
      { st with
        cacheMisses := st.cacheMisses + 1
        analysisCache := mapSet st.analysisCache cacheKey analysis
        totalAnalyses := st.totalAnalyses + 1
        threatDetections :=
          st.threatDetections + (if analysis.results.riskScore > 50 then 1 else 0) })

/-- Result of `EmailParser.validateEmail` (parser lines 372-390). -/
structure ValidationResult where
  isValid : Bool
  errors : List Str
deriving Repr, DecidableEq

/-- Model of `EmailParser.validateEmail` (parser lines 372-390).  The
`!email.headers` branch cannot fire for a parsed email (the headers
object always exists); the remaining checks use JS falsiness, so a
missing or empty (`''`) header counts as absent, while `!email.body` is
true only for the *empty* body — a whitespace-only body is truthy. -/
def validateEmail (e : Email) : ValidationResult :=
  let errors : List Str :=
    (if (getHeader e ("from".data)).getD [] = []
     then [("Missing From header".data)] else []) ++
    (if (getHeader e ("subject".data)).getD [] = []
     then [("Missing Subject header".data)] else []) ++
    (if e.body = [] ∧ e.attachments = []
     then [("Email has no body content or attachments".data)] else [])
  { isValid := decide (errors = []), errors := errors }

/-- An email whose body is whitespace-only and with no attachments. -/
def wsBodyEmail : Email :=
  { headers := [(("subject".data), ("Hi".data)), (("from".data), ("a@b.com".data))]
    body := [' '] }

/-- An email with an empty body and no attachments. -/
def emptyBodyEmail : Email :=
  { headers := [(("subject".data), ("Hi".data)), (("from".data), ("a@b.com".data))]
    body := [] }

/-- Model of `sanitizeEmailForStorage` as called on an arbitrary JS value:
optional chaining (`email.headers?.subject`) protects a missing
`headers`, but not `email` itself being `null` — dereferencing
`null.headers` throws a TypeError. -/
def sanitizeEmailForStorageJS (input : Option Email) : Except Str SanitizedEmail :=
  match input with
  | none => .error ("TypeError: Cannot read properties of null".data)
  | some e => .ok (sanitizeEmailForStorage e)

/-- The fallback Analysis the `catch` block of `analyzeEmail` tries to
build (lines 202-216): riskScore 0, category `unknown`, confidence 0,
`results.error` set and `metadata.failed = true`; building it calls
`sanitizeEmailForStorage(email)`, which itself can throw. -/
def fallbackAnalysis (input : Option Email) (errMsg : Str) (newId newTs : Str) :
    Except Str Analysis :=
  (sanitizeEmailForStorageJS input).map (fun s =>
    { id := newId
      timestamp := newTs
      email := s
      results :=
        { threatAssessment := none
          sentimentAnalysis := none
          riskScore := 0
          riskLevel := none
          category := .unknown
          confidence := 0
          error := some errMsg
          failed := true } })

/-- Model of `analyzeEmail` with its outer try/catch (lines 95-217), on an
arbitrary JS input (`none` models `null` / a non-object).  For `null`,
the try body throws `'Invalid email object provided'` (line 98) and the
catch block's own `sanitizeEmailForStorage(email)` call (line 205)
throws a TypeError, which escapes `analyzeEmail`. -/
def analyzeEmailJS (st : AgentState) (input : Option Email) (newId newTs : Str) :
    Except Str (Analysis × AgentState) :=
  match input with
  | some e => .ok (analyzeEmailOk st e newId newTs)
  | none =>
    (fallbackAnalysis none ("Invalid email object provided".data) newId newTs).map
      (fun a => (a, st))

/-- Scenario A's minimal email: body with both phrases and one bit.ly
URL in the extracted metadata. -/
def scenarioAEmail : Email :=
  { headers := []
    body := ("urgent verify your account".data)
    metadata := { urls := [("https://bit.ly/a".data)] } }

/-- JS `s.trimStart()`-part of `trim`. -/
def trimStart (s : Str) : Str := s.dropWhile isWsChar

/-- JS `s.trimEnd()`-part of `trim`: drop trailing whitespace. -/
def trimEnd : Str → Str
  | [] => []
  | c :: cs =>
    let r := trimEnd cs
    if r = [] ∧ isWsChar c then [] else c :: r

/-- JS `s.trim()`. -/
def jsTrim (s : Str) : Str := trimEnd (trimStart s)

/-- Model of `line.trim().startsWith('>')` — the filter of `cleanEmailBody`. -/
def isQuotedLine (line : Str) : Bool := decide ((jsTrim line).head? = some '>')

/-- The regex replace `/\n{3,}/g → '\n\n'` of `cleanEmailBody`,
implemented as: drop every newline that is preceded by two newlines
(`k` counts the newlines just emitted, saturated at 2). -/
def collapseNlGo : Nat → Str → Str
  | _, [] => []
  | k, c :: cs =>
    if c = '\n' then
      if k ≥ 2 then collapseNlGo 2 cs else c :: collapseNlGo (k + 1) cs
    else c :: collapseNlGo 0 cs

/-- Model of `EmailParser.cleanEmailBody` (parser lines 340-349): split into
lines, drop quoted-reply lines, re-join, collapse newline runs of 3 or
more to 2, and trim.  (For the empty body the source early-returns `''`,
which coincides with this computation.) -/
def cleanEmailBody (body : Str) : Str :=
  let lines := jsSplit '\n' body
  let cleanLines := lines.filter (fun line => !(isQuotedLine line))
  jsTrim (collapseNlGo 0 (List.intercalate ['\n'] cleanLines))

/-- Model of `EmailParser.normalizeHeaders` (parser lines 352-361):
`key.toLowerCase().trim()` on every key.  (The JS object assignment
would let a later duplicate normalized key win; keys of a parsed email
are unique, so the per-entry map is equivalent.) -/
def normalizeHeaders (headers : List (Str × Str)) : List (Str × Str) :=
  headers.map (fun p => (jsTrim (jsToLower p.1), p.2))

/-- JS `Set` insertion-order de-duplication. -/
def dedupList (l : List Str) : List Str :=
  l.foldl (fun acc x => if x ∈ acc then acc else acc ++ [x]) []

/-- The per-item domain derivation of `extractMetadata` (parser lines
213-227): an item containing `@` contributes `split('@')[1]`, otherwise
`new URL(item).hostname`; empty domains and malformed URLs are silently
skipped; the domain is lower-cased before insertion. -/
def domainOfItem (item : Str) : Option Str :=
  if jsIncludes item ("@".data) then
    match (jsSplit '@' item).get? 1 with
    | some d => if d = [] then none else some (jsToLower d)
    | none => none
  else
    match jsParseURL item with
    | some u => if u.hostname = [] then none else some (jsToLower u.hostname)
    | none => none

/-- The `domains` metadata list: derived from the extracted URLs and
email addresses (in that order), de-duplicated by the `Set`. -/
def extractDomains (urls emailAddresses : List Str) : List Str :=
  dedupList ((urls ++ emailAddresses).filterMap domainOfItem)

/-- Model of `enrichEmailData` (parser lines 165-179), restricted to the fields
the invariants concern: headers are normalized, the body is cleaned,
and the domains metadata is derived from the extracted URLs and email
addresses (extraction happens before cleaning, so from the original
body's matches, which the model takes as given in `metadata`). -/
def enrichEmailData (e : Email) : Email :=
  { e with
    headers := normalizeHeaders e.headers
    body := cleanEmailBody e.body
    metadata :=
      { e.metadata with
        domains := extractDomains e.metadata.urls e.metadata.emailAddresses } }

/-- Scanner checking that no run of 3 or more consecutive newlines
occurs (`k` = length of the current newline run so far). -/
def maxNlRunOk : Nat → Str → Bool
  | _, [] => true
  | k, c :: cs =>
    if c = '\n' then decide (k + 1 ≤ 2) && maxNlRunOk (k + 1) cs
    else maxNlRunOk 0 cs

/-- Negation of `cleanEmailBody`'s quoted-reply filter predicate, as a
proposition: the line's trimmed form does not start with `>`. -/
def notQuoted (line : Str) : Prop := ¬ ((jsTrim line).head? = some '>')

/-- The uppercase and lowercase ASCII letters. -/
def upperLetters : List Char :=
  ['A','B','C','D','E','F','G','H','I','J','K','L','M',
   'N','O','P','Q','R','S','T','U','V','W','X','Y','Z']

def lowerLetters : List Char :=
  ['a','b','c','d','e','f','g','h','i','j','k','l','m',
   'n','o','p','q','r','s','t','u','v','w','x','y','z']

/-! ## The claims: lemmas and theorems -/

lemma sum_map_nonneg {α : Type} (l : List α) (f : α → ℚ)
    (h : ∀ a ∈ l, 0 ≤ f a) : 0 ≤ (l.map f).sum := by
  refine List.sum_nonneg ?_
  intro x hx
  obtain ⟨a, ha, rfl⟩ := List.mem_map.1 hx
  exact h a ha

lemma ite_incr_nonneg (c : Prop) [Decidable c] (q : ℚ) (hq : 0 ≤ q) :
    0 ≤ (if c then q else 0) := by
  split
  · exact hq
  · exact le_refl 0

lemma phishingUrlScore_nonneg (url : Str) : 0 ≤ phishingUrlScore url := by
  unfold phishingUrlScore
  cases jsParseURL url with
  | none => norm_num
  | some u =>
    refine add_nonneg ?_ ?_ <;> exact ite_incr_nonneg _ _ (by norm_num)

lemma phishingSpoofScore_nonneg (e : Email) : 0 ≤ phishingSpoofScore e := by
  unfold phishingSpoofScore
  cases getHeader e ("from".data) with
  | none => exact le_refl 0
  | some f =>
    simp only
    split
    · exact le_refl 0
    · cases extractDomainFromEmail f with
      | none => exact le_refl 0
      | some d => exact ite_incr_nonneg _ _ (by norm_num)

lemma malwareAttachmentScore_nonneg (a : Attachment) : 0 ≤ malwareAttachmentScore a := by
  unfold malwareAttachmentScore
  refine add_nonneg ?_ ?_ <;> exact ite_incr_nonneg _ _ (by norm_num)

lemma detectorOk_mk (S : ℚ) (ind : List Str) (hS : 0 ≤ S) :
    detectorOk { detected := decide (min 1 S ≥ CONFIG.THREAT_CONFIDENCE_THRESHOLD)
                 confidence := min 1 S
                 indicators := ind } := by
  refine ⟨le_min (by norm_num) hS, min_le_left 1 S, rfl⟩

/-- C1: for every email, each of the five detectors (`detectPhishing`,
`detectMalware`, `detectSpam`, `detectSocialEngineering`, `detectBEC`)
returns a confidence in `[0,1]` (a clamped sum of fixed non-negative
per-signal increments, computed independently of the indicators list)
and a detected flag equal to
`confidence >= CONFIG.AI.THREAT_CONFIDENCE_THRESHOLD` (= 0.7). -/
theorem detector_results_valid (e : Email) :
    detectorOk (detectPhishing e) ∧ detectorOk (detectMalware e) ∧
    detectorOk (detectSpam e) ∧ detectorOk (detectSocialEngineering e) ∧
    detectorOk (detectBEC e) := by
  refine ⟨detectorOk_mk _ _ ?_, detectorOk_mk _ _ ?_, detectorOk_mk _ _ ?_,
          detectorOk_mk _ _ ?_, detectorOk_mk _ _ ?_⟩
  · refine add_nonneg (add_nonneg (add_nonneg ?_ ?_) (phishingSpoofScore_nonneg e)) ?_
    · exact sum_map_nonneg _ _ (fun a _ => ite_incr_nonneg _ _ (by norm_num))
    · exact sum_map_nonneg _ _ (fun a _ => phishingUrlScore_nonneg a)
    · exact sum_map_nonneg _ _ (fun a _ => ite_incr_nonneg _ _ (by norm_num))
  · refine add_nonneg ?_ ?_
    · exact sum_map_nonneg _ _ (fun a _ => malwareAttachmentScore_nonneg a)
    · exact sum_map_nonneg _ _ (fun a _ => ite_incr_nonneg _ _ (by norm_num))
  · refine add_nonneg (add_nonneg ?_ ?_) ?_
    · exact sum_map_nonneg _ _ (fun a _ => ite_incr_nonneg _ _ (by norm_num))
    · exact ite_incr_nonneg _ _ (by norm_num)
    · exact ite_incr_nonneg _ _ (by norm_num)
  · refine add_nonneg ?_ ?_ <;>
      exact sum_map_nonneg _ _ (fun a _ => ite_incr_nonneg _ _ (by norm_num))
  · refine add_nonneg ?_ ?_ <;>
      exact sum_map_nonneg _ _ (fun a _ => ite_incr_nonneg _ _ (by norm_num))

lemma riskLevelOf_spec (q : ℚ) :
    (q < 25 ↔ riskLevelOf q = RiskLevel.low) ∧
    ((25 ≤ q ∧ q < 50) ↔ riskLevelOf q = RiskLevel.medium) ∧
    ((50 ≤ q ∧ q < 75) ↔ riskLevelOf q = RiskLevel.high) ∧
    (75 ≤ q ↔ riskLevelOf q = RiskLevel.critical) := by
  unfold riskLevelOf
  split_ifs with h1 h2 h3
  · exact ⟨iff_of_true h1 rfl,
      iff_of_false (fun h => absurd h1 (not_lt.2 h.1)) (by decide),
      iff_of_false (fun h => absurd h1 (not_lt.2 (le_trans (by norm_num) h.1))) (by decide),
      iff_of_false (fun h => absurd h1 (not_lt.2 (le_trans (by norm_num) h))) (by decide)⟩
  · exact ⟨iff_of_false h1 (by decide),
      iff_of_true ⟨not_lt.1 h1, h2⟩ rfl,
      iff_of_false (fun h => absurd h2 (not_lt.2 h.1)) (by decide),
      iff_of_false (fun h => absurd h2 (not_lt.2 (le_trans (by norm_num) h))) (by decide)⟩
  · exact ⟨iff_of_false h1 (by decide),
      iff_of_false (fun h => absurd h.2 h2) (by decide),
      iff_of_true ⟨not_lt.1 h2, h3⟩ rfl,
      iff_of_false (fun h => absurd h3 (not_lt.2 h)) (by decide)⟩
  · exact ⟨iff_of_false h1 (by decide),
      iff_of_false (fun h => absurd h.2 h2) (by decide),
      iff_of_false (fun h => absurd h.2 h3) (by decide),
      iff_of_true (not_lt.1 h3) rfl⟩

/-- C2: for every aggregator input, `riskScore` is clamped to `[0,100]`
and `riskLevel` follows the strict-less-than breakpoints `<25` low,
`<50` medium, `<75` high, otherwise critical, so each boundary value
(25, 50, 75) belongs to the higher band. -/
theorem overall_riskScore_bounds_and_levels (t : ThreatAssessment)
    (senti : SentimentResult) :
    0 ≤ (calculateOverallAssessment t senti).riskScore ∧
    (calculateOverallAssessment t senti).riskScore ≤ 100 ∧
    ((calculateOverallAssessment t senti).riskScore < 25 ↔
        (calculateOverallAssessment t senti).riskLevel = RiskLevel.low) ∧
    ((25 ≤ (calculateOverallAssessment t senti).riskScore ∧
        (calculateOverallAssessment t senti).riskScore < 50) ↔
        (calculateOverallAssessment t senti).riskLevel = RiskLevel.medium) ∧
    ((50 ≤ (calculateOverallAssessment t senti).riskScore ∧
        (calculateOverallAssessment t senti).riskScore < 75) ↔
        (calculateOverallAssessment t senti).riskLevel = RiskLevel.high) ∧
    (75 ≤ (calculateOverallAssessment t senti).riskScore ↔
        (calculateOverallAssessment t senti).riskLevel = RiskLevel.critical) := by
  have spec := riskLevelOf_spec ((calculateOverallAssessment t senti).riskScore)
  exact ⟨le_min (by norm_num) (le_max_left 0 _), min_le_left _ _,
         spec.1, spec.2.1, spec.2.2.1, spec.2.2.2⟩

lemma aggStep_of_detected_gt (s : AggState) (p : ThreatType × DetectorResult)
    (hd : p.2.detected = true) (hgt : s.confidence < p.2.confidence) :
    aggStep s p = { riskScore := s.riskScore + p.2.confidence * threatWeight p.1 * 100
                    category := mapThreatToCategory p.1
                    confidence := p.2.confidence } := by
  unfold aggStep
  rw [if_pos hd, if_pos hgt]

lemma aggStep_of_detected_le (s : AggState) (p : ThreatType × DetectorResult)
    (hd : p.2.detected = true) (hle : ¬ s.confidence < p.2.confidence) :
    aggStep s p = { s with riskScore := s.riskScore + p.2.confidence * threatWeight p.1 * 100 } := by
  unfold aggStep
  rw [if_pos hd, if_neg hle]

lemma aggStep_of_undetected (s : AggState) (p : ThreatType × DetectorResult)
    (hd : p.2.detected = false) : aggStep s p = s := by
  unfold aggStep
  rw [if_neg (by simp [hd])]

lemma aggStep_confidence (s : AggState) (p : ThreatType × DetectorResult) :
    (aggStep s p).confidence =
      (if p.2.detected = true then max s.confidence p.2.confidence else s.confidence) := by
  by_cases hd : p.2.detected = true
  · by_cases hgt : s.confidence < p.2.confidence
    · rw [aggStep_of_detected_gt s p hd hgt, if_pos hd]
      exact (max_eq_right (le_of_lt hgt)).symm
    · rw [aggStep_of_detected_le s p hd hgt, if_pos hd]
      exact (max_eq_left (not_lt.1 hgt)).symm
  · rw [aggStep_of_undetected s p (Bool.not_eq_true _ ▸ hd), if_neg hd]

lemma aggStep_confidence_le (s : AggState) (p : ThreatType × DetectorResult) :
    s.confidence ≤ (aggStep s p).confidence := by
  rw [aggStep_confidence]
  split
  · exact le_max_left _ _
  · exact le_refl _

lemma aggStep_riskScore (s : AggState) (p : ThreatType × DetectorResult) :
    (aggStep s p).riskScore =
      s.riskScore + (if p.2.detected then p.2.confidence * threatWeight p.1 * 100 else 0) := by
  by_cases hd : p.2.detected = true
  · by_cases hgt : s.confidence < p.2.confidence
    · rw [aggStep_of_detected_gt s p hd hgt, if_pos hd]
    · rw [aggStep_of_detected_le s p hd hgt, if_pos hd]
  · rw [aggStep_of_undetected s p (Bool.not_eq_true _ ▸ hd), if_neg hd, add_zero]

lemma foldl_aggStep_confidence (l : List (ThreatType × DetectorResult)) (s : AggState) :
    (l.foldl aggStep s).confidence =
      l.foldl (fun m p => if p.2.detected = true then max m p.2.confidence else m)
        s.confidence := by
  induction l generalizing s with
  | nil => rfl
  | cons p l ih =>
    rw [List.foldl_cons, List.foldl_cons, ih, aggStep_confidence]

lemma foldl_max_ge_init (l : List (ThreatType × DetectorResult)) (m : ℚ) :
    m ≤ l.foldl (fun m p => if p.2.detected = true then max m p.2.confidence else m) m := by
  induction l generalizing m with
  | nil => exact le_refl m
  | cons p l ih =>
    rw [List.foldl_cons]
    refine le_trans ?_ (ih _)
    show m ≤ (if p.2.detected = true then max m p.2.confidence else m)
    split
    · exact le_max_left _ _
    · exact le_refl m

lemma foldl_max_ge_mem (l : List (ThreatType × DetectorResult)) (m : ℚ)
    (p : ThreatType × DetectorResult) (hp : p ∈ l) (hd : p.2.detected = true) :
    p.2.confidence ≤
      l.foldl (fun m p => if p.2.detected = true then max m p.2.confidence else m) m := by
  induction hp generalizing m with
  | head l =>
    rw [List.foldl_cons]
    refine le_trans ?_ (foldl_max_ge_init l _)
    show p.2.confidence ≤ (if p.2.detected = true then max m p.2.confidence else m)
    rw [if_pos hd]
    exact le_max_right _ _
  | tail q hmem ih =>
    rw [List.foldl_cons]
    exact ih _

lemma foldl_aggStep_riskScore (l : List (ThreatType × DetectorResult)) (s : AggState) :
    (l.foldl aggStep s).riskScore =
      s.riskScore +
        (l.map (fun p => if p.2.detected then p.2.confidence * threatWeight p.1 * 100 else 0)).sum := by
  induction l generalizing s with
  | nil => simp
  | cons p l ih =>
    rw [List.foldl_cons, ih, aggStep_riskScore, List.map_cons, List.sum_cons, add_assoc]

lemma foldl_aggStep_category (l : List (ThreatType × DetectorResult)) (s : AggState) :
    ((l.foldl aggStep s).category = s.category ∧
      (l.foldl aggStep s).confidence = s.confidence) ∨
    (∃ p ∈ l, p.2.detected = true ∧ p.2.confidence = (l.foldl aggStep s).confidence ∧
      (l.foldl aggStep s).category = mapThreatToCategory p.1 ∧
      s.confidence < (l.foldl aggStep s).confidence) := by
  induction l generalizing s with
  | nil => exact Or.inl ⟨rfl, rfl⟩
  | cons p l ih =>
    rw [List.foldl_cons]
    by_cases hdet : p.2.detected = true
    · by_cases hgt : s.confidence < p.2.confidence
      · rw [aggStep_of_detected_gt s p hdet hgt]
        rcases ih _ with ⟨hc, hf⟩ | ⟨q, hq, hd, hconf, hcat, hlt⟩
        · refine Or.inr ⟨p, List.mem_cons_self p l, hdet, hf.symm, hc, ?_⟩
          rw [hf]
          exact hgt
        · exact Or.inr ⟨q, List.mem_cons_of_mem p hq, hd, hconf, hcat, lt_trans hgt hlt⟩
      · rw [aggStep_of_detected_le s p hdet hgt]
        rcases ih _ with ⟨hc, hf⟩ | ⟨q, hq, hd, hconf, hcat, hlt⟩
        · exact Or.inl ⟨hc, hf⟩
        · exact Or.inr ⟨q, List.mem_cons_of_mem p hq, hd, hconf, hcat, hlt⟩
    · rw [aggStep_of_undetected s p (Bool.not_eq_true _ ▸ hdet)]
      rcases ih s with ⟨hc, hf⟩ | ⟨q, hq, hd, hconf, hcat, hlt⟩
      · exact Or.inl ⟨hc, hf⟩
      · exact Or.inr ⟨q, List.mem_cons_of_mem p hq, hd, hconf, hcat, hlt⟩

/-- C3 counterexample: with no detected threat and sentiment score −1,
the implementation returns riskScore 10 (flat sentiment penalty), while
the claim's "weighted sum over detected threats" is 0 — so riskScore is
not the weighted sum the claim describes. -/
theorem overall_riskScore_sentiment_penalty_counterexample :
    (calculateOverallAssessment allClearThreats verySadSentiment).riskScore = 10 ∧
    claimedWeightedRiskScore allClearThreats = 0 := by
  constructor <;>
    norm_num [calculateOverallAssessment, claimedWeightedRiskScore, allClearThreats,
      allClearResult, verySadSentiment, ThreatAssessment.entries, aggStep, threatWeight]

/-- C3 (amended): provided every detected input has positive confidence
(which C1 guarantees for real detector outputs), the aggregator returns
`legitimate`/0 when nothing is detected; otherwise its category and
confidence are those of a detected threat whose confidence is maximal
among detected threats; and riskScore is the clamp to `[0,100]` of the
weighted sum (phishing 0.30, malware 0.25, social-engineering 0.20,
spam 0.15, BEC 0.10 of `confidence*weight*100` over detected threats)
plus a flat +10 sentiment penalty when the sentiment score is < −0.5. -/
theorem overall_category_confidence_spec (t : ThreatAssessment) (senti : SentimentResult)
    (hpos : ∀ p ∈ t.entries, p.2.detected = true → 0 < p.2.confidence) :
    ((∀ p ∈ t.entries, p.2.detected = false) →
        (calculateOverallAssessment t senti).category = Category.legitimate ∧
        (calculateOverallAssessment t senti).confidence = 0) ∧
    ((∃ p ∈ t.entries, p.2.detected = true) →
        ∃ p ∈ t.entries, p.2.detected = true ∧
          p.2.confidence = (calculateOverallAssessment t senti).confidence ∧
          (calculateOverallAssessment t senti).category = mapThreatToCategory p.1 ∧
          (∀ q ∈ t.entries, q.2.detected = true →
            q.2.confidence ≤ (calculateOverallAssessment t senti).confidence)) ∧
    (calculateOverallAssessment t senti).riskScore =
      min 100 (max 0 (claimedWeightedRiskScore t +
        (if senti.score < -(1/2) then 10 else 0))) := by
  have hcat := foldl_aggStep_category t.entries
      { riskScore := 0, category := Category.legitimate, confidence := 0 }
  have hconf : (calculateOverallAssessment t senti).confidence =
      t.entries.foldl (fun m p => if p.2.detected = true then max m p.2.confidence else m) 0 :=
    foldl_aggStep_confidence t.entries
      { riskScore := 0, category := Category.legitimate, confidence := 0 }
  have hrs := foldl_aggStep_riskScore t.entries
      { riskScore := 0, category := Category.legitimate, confidence := 0 }
  have hub : ∀ q ∈ t.entries, q.2.detected = true →
      q.2.confidence ≤ (calculateOverallAssessment t senti).confidence := by
    intro q hq hqd
    rw [hconf]
    exact foldl_max_ge_mem t.entries 0 q hq hqd
  refine ⟨?_, ?_, ?_⟩
  · intro hall
    rcases hcat with ⟨hc, hf⟩ | ⟨p, hp, hd, _⟩
    · exact ⟨hc, hf⟩
    · rw [hall p hp] at hd
      cases hd
  · rintro ⟨p, hp, hd⟩
    rcases hcat with ⟨_, hf⟩ | ⟨q, hq, hqd, hqconf, hqcat, _⟩
    · exfalso
      have h1 := hpos p hp hd
      have h2 := hub p hp hd
      have h3 : (calculateOverallAssessment t senti).confidence = 0 := hf
      rw [h3] at h2
      exact absurd (lt_of_lt_of_le h1 h2) (lt_irrefl 0)
    · exact ⟨q, hq, hqd, hqconf, hqcat, hub⟩
  · have key : (if senti.score < -(1/2)
        then (t.entries.foldl aggStep
          { riskScore := 0, category := Category.legitimate, confidence := 0 }).riskScore + 10
        else (t.entries.foldl aggStep
          { riskScore := 0, category := Category.legitimate, confidence := 0 }).riskScore)
        = claimedWeightedRiskScore t + (if senti.score < -(1/2) then 10 else 0) := by
      rw [hrs]
      unfold claimedWeightedRiskScore
      split_ifs <;> ring
    exact congrArg (fun x => min 100 (max 0 x)) key

/-- Witness for the amended C3 theorem at a concrete input. -/
theorem overall_category_confidence_spec_witness :
    (∀ p ∈ allClearThreats.entries, p.2.detected = true → 0 < p.2.confidence) ∧
    (calculateOverallAssessment allClearThreats verySadSentiment).riskScore =
      min 100 (max 0 (claimedWeightedRiskScore allClearThreats +
        (if verySadSentiment.score < -(1/2) then 10 else 0))) :=
  ⟨by decide,
   (overall_category_confidence_spec allClearThreats verySadSentiment (by decide)).2.2⟩

lemma mapGet_mapSet_self (m : List (Str × Analysis)) (k : Str) (v : Analysis) :
    mapGet (mapSet m k v) k = some v := by
  induction m with
  | nil => simp [mapGet, mapSet, List.find?]
  | cons p rest ih =>
    unfold mapSet
    by_cases hp : p.1 = k
    · rw [if_pos hp]
      simp [mapGet, List.find?]
    · rw [if_neg hp]
      unfold mapGet at ih ⊢
      simp only [List.find?]
      rw [decide_eq_false hp]
      exact ih

lemma generateCacheKey_congr (e1 e2 : Email)
    (hsub : getHeader e1 ("subject".data) = getHeader e2 ("subject".data))
    (hfrom : getHeader e1 ("from".data) = getHeader e2 ("from".data))
    (hbody : e1.body.take 1000 = e2.body.take 1000) :
    generateCacheKey e1 = generateCacheKey e2 := by
  unfold generateCacheKey
  rw [hsub, hfrom, hbody]

/-- C4: a second `analyzeEmail` call whose input agrees with the first
on the cache-key fields (subject, from, first 1000 body characters)
returns the very Analysis returned by the first call — same `id`, same
`timestamp`, no re-scoring — leaves the cache unchanged, and increments
the hit counter instead of the miss counter. -/
theorem analyzeEmail_second_call_is_cache_hit (st : AgentState) (e1 e2 : Email)
    (id1 ts1 id2 ts2 : Str)
    (hsub : getHeader e1 ("subject".data) = getHeader e2 ("subject".data))
    (hfrom : getHeader e1 ("from".data) = getHeader e2 ("from".data))
    (hbody : e1.body.take 1000 = e2.body.take 1000) :
    (analyzeEmailOk (analyzeEmailOk st e1 id1 ts1).2 e2 id2 ts2).1 =
        (analyzeEmailOk st e1 id1 ts1).1 ∧
    (analyzeEmailOk (analyzeEmailOk st e1 id1 ts1).2 e2 id2 ts2).2.analysisCache =
        (analyzeEmailOk st e1 id1 ts1).2.analysisCache ∧
    (analyzeEmailOk (analyzeEmailOk st e1 id1 ts1).2 e2 id2 ts2).2.cacheHits =
        (analyzeEmailOk st e1 id1 ts1).2.cacheHits + 1 ∧
    (analyzeEmailOk (analyzeEmailOk st e1 id1 ts1).2 e2 id2 ts2).2.cacheMisses =
        (analyzeEmailOk st e1 id1 ts1).2.cacheMisses := by
  have hkey := generateCacheKey_congr e1 e2 hsub hfrom hbody
  unfold analyzeEmailOk
  rw [← hkey]
  cases hfind : mapGet st.analysisCache (generateCacheKey e1) with
  | some cached => simp [hfind]
  | none => simp [hfind, mapGet_mapSet_self]

/-- Witness for C4 at a concrete input. -/
theorem analyzeEmail_second_call_is_cache_hit_witness :
    (getHeader witnessEmail ("subject".data) = getHeader witnessEmail ("subject".data)) ∧
    (getHeader witnessEmail ("from".data) = getHeader witnessEmail ("from".data)) ∧
    (witnessEmail.body.take 1000 = witnessEmail.body.take 1000) ∧
    (analyzeEmailOk (analyzeEmailOk initialAgentState witnessEmail ("id1".data) ("t1".data)).2
        witnessEmail ("id2".data) ("t2".data)).1 =
      (analyzeEmailOk initialAgentState witnessEmail ("id1".data) ("t1".data)).1 :=
  ⟨rfl, rfl, rfl,
   (analyzeEmail_second_call_is_cache_hit initialAgentState witnessEmail witnessEmail
     ("id1".data) ("t1".data) ("id2".data) ("t2".data) rfl rfl rfl).1⟩

lemma mapDelete_cons_self (k : Str) (v : Analysis) (rest : List (Str × Analysis))
    (hk : k ∉ rest.map Prod.fst) : mapDelete ((k, v) :: rest) k = rest := by
  unfold mapDelete
  rw [List.filter_cons]
  simp only [decide_eq_true_eq]
  rw [if_neg (by simp)]
  refine List.filter_eq_self.2 ?_
  intro p hp
  simp only [decide_eq_true_eq]
  intro hpk
  exact hk (hpk ▸ List.mem_map_of_mem Prod.fst hp)

/-- Deleting the first `n` keys of a cache with pairwise-distinct keys
drops exactly its first `n` entries. -/
lemma foldl_mapDelete_take (m : List (Str × Analysis)) (n : Nat)
    (hnd : (m.map Prod.fst).Nodup) :
    ((m.take n).foldl (fun cache p => mapDelete cache p.1) m) = m.drop n := by
  induction m generalizing n with
  | nil => simp [List.take_nil, List.drop_nil]
  | cons p rest ih =>
    cases n with
    | zero => simp
    | succ n =>
      rw [List.take_succ_cons, List.foldl_cons, List.drop_succ_cons]
      rw [List.map_cons, List.nodup_cons] at hnd
      have hdel : mapDelete ((p.1, p.2) :: rest) p.1 = rest :=
        mapDelete_cons_self p.1 p.2 rest hnd.1
      rw [show ((p.1, p.2) : Str × Analysis) = p from rfl] at hdel
      rw [hdel]
      have hsub : ∀ q ∈ rest.take n, q ∈ rest := fun q hq => List.mem_of_mem_take hq
      exact ih n hnd.2

/-- C5: after the sweep body of `setupCacheCleanup` runs, the cache
holds at most `MAX_CACHE_SIZE` (1000) entries; when the size exceeds the
bound it removes exactly the excess count of entries in insertion order
(oldest-inserted first, FIFO), i.e. the surviving cache is `drop
(size - 1000)` of the old one; and every removed (oldest) fingerprint is
no longer retrievable — so after 1500 unique emails the 500
oldest-inserted fingerprints look up to nothing. -/
theorem cleanupCache_spec (st : AgentState)
    (hnd : (st.analysisCache.map Prod.fst).Nodup) :
    (cleanupCache st).analysisCache.length ≤ 1000 ∧
    (cleanupCache st).analysisCache =
      st.analysisCache.drop (st.analysisCache.length - 1000) ∧
    (∀ k ∈ (st.analysisCache.map Prod.fst).take (st.analysisCache.length - 1000),
      mapGet (cleanupCache st).analysisCache k = none) := by
  unfold cleanupCache
  by_cases hlen : st.analysisCache.length > 1000
  · simp only [hlen, if_true]
    have heq := foldl_mapDelete_take st.analysisCache (st.analysisCache.length - 1000) hnd
    refine ⟨?_, heq, ?_⟩
    · rw [heq, List.length_drop]
      omega
    · intro k hk
      rw [heq]
      have hsplit := List.take_append_drop (st.analysisCache.length - 1000)
        (st.analysisCache.map Prod.fst)
      rw [← hsplit] at hnd
      have hdisj := (List.nodup_append.1 hnd).2.2
      have hknot : k ∉ (st.analysisCache.map Prod.fst).drop
          (st.analysisCache.length - 1000) := fun hmem => hdisj hk hmem
      unfold mapGet
      rw [List.find?_eq_none.2]
      · rfl
      · intro p hp
        simp only [decide_eq_true_eq]
        intro hpk
        refine hknot ?_
        rw [← List.map_drop]
        exact hpk ▸ List.mem_map_of_mem Prod.fst hp
  · simp only [hlen, if_false]
    have h0 : st.analysisCache.length - 1000 = 0 := by omega
    rw [h0]
    exact ⟨by omega, by simp, by simp⟩

/-- Witness for C5 at a concrete state. -/
theorem cleanupCache_spec_witness :
    (twoEntryState.analysisCache.map Prod.fst).Nodup ∧
    (cleanupCache twoEntryState).analysisCache.length ≤ 1000 :=
  ⟨by decide, (cleanupCache_spec twoEntryState (by decide)).1⟩

/-- C6 counterexample: the phishing detector succeeds with a detected
result, the malware detector rejects — contrary to the claim, the
phishing detector's result is *not* included: the whole assessment is
replaced by the all-clear fallback. -/
theorem assessThreats_error_discards_other_detectors :
    threatComponent (assessThreatsE (.ok highPhishingResult) (.error ("boom".data))
      (.ok allClearResult) (.ok allClearResult) (.ok allClearResult)) = allClearThreats ∧
    (threatComponent (assessThreatsE (.ok highPhishingResult) (.error ("boom".data))
      (.ok allClearResult) (.ok allClearResult) (.ok allClearResult))).phishing ≠
      highPhishingResult := by
  refine ⟨rfl, ?_⟩
  intro h
  have : allClearResult.detected = highPhishingResult.detected := congrArg DetectorResult.detected h
  simp [allClearResult, highPhishingResult] at this

/-- C6 (amended): when any one of the five detector computations fails,
the failure propagates out of `assessThreats` and is caught once for
the whole threat assessment: *all five* contributions are replaced by
the fallback `{detected:false, confidence:0}` — including detectors
that succeeded — while the rest of the analysis (sentiment and the
aggregate) still completes and the email is not failed. -/
theorem assessThreats_error_gives_fallback (e : Email) (newId newTs : Str)
    (dp dm ds dse db : Except Str DetectorResult)
    (herr : (∃ m, dp = .error m) ∨ (∃ m, dm = .error m) ∨ (∃ m, ds = .error m) ∨
            (∃ m, dse = .error m) ∨ (∃ m, db = .error m)) :
    threatComponent (assessThreatsE dp dm ds dse db) = allClearThreats ∧
    (analyzeEmailWithOutcomes initialAgentState e newId newTs
        dp dm ds dse db).1.results.threatAssessment = some allClearThreats ∧
    (analyzeEmailWithOutcomes initialAgentState e newId newTs
        dp dm ds dse db).1.results.sentimentAnalysis = some (analyzeSentiment e) ∧
    (analyzeEmailWithOutcomes initialAgentState e newId newTs
        dp dm ds dse db).1.results.error = none := by
  have hfb : threatComponent (assessThreatsE dp dm ds dse db) = allClearThreats := by
    cases dp <;> cases dm <;> cases ds <;> cases dse <;> cases db <;>
      first
        | rfl
        | (rcases herr with ⟨m, h⟩ | ⟨m, h⟩ | ⟨m, h⟩ | ⟨m, h⟩ | ⟨m, h⟩ <;> cases h)
  refine ⟨hfb, ?_, ?_, ?_⟩ <;>
    simp [analyzeEmailWithOutcomes, mapGet, initialAgentState, hfb]

/-- Witness for the amended C6 theorem at a concrete input. -/
theorem assessThreats_error_gives_fallback_witness :
    ((∃ m, (Except.error ("boom".data) : Except Str DetectorResult) = .error m) ∨
     (∃ m, (Except.ok allClearResult : Except Str DetectorResult) = .error m) ∨
     (∃ m, (Except.ok allClearResult : Except Str DetectorResult) = .error m) ∨
     (∃ m, (Except.ok allClearResult : Except Str DetectorResult) = .error m) ∨
     (∃ m, (Except.ok allClearResult : Except Str DetectorResult) = .error m)) ∧
    threatComponent (assessThreatsE (.error ("boom".data)) (.ok allClearResult)
      (.ok allClearResult) (.ok allClearResult) (.ok allClearResult)) = allClearThreats :=
  ⟨Or.inl ⟨("boom".data), rfl⟩,
   (assessThreats_error_gives_fallback witnessEmail ("id".data) ("t".data)
     (.error ("boom".data)) (.ok allClearResult) (.ok allClearResult)
     (.ok allClearResult) (.ok allClearResult) (Or.inl ⟨("boom".data), rfl⟩)).1⟩

/-- C7 counterexample: a whitespace-only body with no attachments is
*not* rejected — `validateEmail` (which the analyze pipeline never
invokes anyway, and which only reacts to a truly empty body) reports it
valid, and `analyzeEmail` runs all detectors on it and returns a normal
analysis; no `EmptyContentError` exists in the repository. -/
theorem emptyContent_no_failfast_counterexample :
    (validateEmail wsBodyEmail).isValid = true ∧
    (analyzeEmailOk initialAgentState wsBodyEmail ("id".data) ("t".data)).1.results.threatAssessment
      = some (assessThreats wsBodyEmail) ∧
    (analyzeEmailOk initialAgentState wsBodyEmail ("id".data) ("t".data)).1.results.error = none := by
  refine ⟨by decide, rfl, rfl⟩

/-- C7 (amended): the repository defines no `EmptyContentError` and the
analyze pipeline performs no empty-content check before the detectors
run.  What exists is `validateEmail` — never called by the pipeline —
which returns `isValid = false` with the error string "Email has no
body content or attachments" exactly when the body is empty (`''`; a
whitespace-only body counts as content) and there are no attachments;
`analyzeEmail` still runs all detectors on such an email. -/
theorem validateEmail_empty_content_spec (e : Email) (newId newTs : Str)
    (hbody : e.body = []) (hatt : e.attachments = []) :
    ("Email has no body content or attachments".data) ∈ (validateEmail e).errors ∧
    (validateEmail e).isValid = false ∧
    (analyzeEmailOk initialAgentState e newId newTs).1.results.threatAssessment =
      some (assessThreats e) := by
  have hcond : e.body = [] ∧ e.attachments = [] := ⟨hbody, hatt⟩
  have hmem : ("Email has no body content or attachments".data) ∈ (validateEmail e).errors := by
    unfold validateEmail
    rw [if_pos hcond]
    exact List.mem_append.2 (Or.inr (List.mem_singleton.2 rfl))
  refine ⟨hmem, ?_, rfl⟩
  unfold validateEmail at hmem ⊢
  simp only [decide_eq_false_iff_not]
  intro hnil
  rw [hnil] at hmem
  cases hmem

/-- Witness for the amended C7 theorem at a concrete input. -/
theorem validateEmail_empty_content_spec_witness :
    emptyBodyEmail.body = [] ∧ emptyBodyEmail.attachments = [] ∧
    (validateEmail emptyBodyEmail).isValid = false :=
  ⟨rfl, rfl,
   (validateEmail_empty_content_spec emptyBodyEmail ("id".data) ("t".data) rfl rfl).2.1⟩

/-- C10: the claim says `analyzeEmail` never throws and returns a
fallback Analysis on any internal failure; but at the failing input
`null`, the catch block itself dereferences `null.headers` inside
`sanitizeEmailForStorage` and the call rejects with a TypeError instead
of returning the fallback record. -/
theorem analyzeEmailJS_null_throws (st : AgentState) (newId newTs : Str) :
    analyzeEmailJS st none newId newTs =
      .error ("TypeError: Cannot read properties of null".data) := rfl

lemma detector_result_eval (S v : ℚ) (ind : List Str) (hSv : S = v) (hv1 : v ≤ 1)
    (hvthr : v < CONFIG.THREAT_CONFIDENCE_THRESHOLD) :
    (DetectorResult.mk (decide (min 1 S ≥ CONFIG.THREAT_CONFIDENCE_THRESHOLD))
      (min 1 S) ind).confidence = v ∧
    (DetectorResult.mk (decide (min 1 S ≥ CONFIG.THREAT_CONFIDENCE_THRESHOLD))
      (min 1 S) ind).detected = false := by
  subst hSv
  refine ⟨min_eq_right hv1, ?_⟩
  show decide (min 1 S ≥ CONFIG.THREAT_CONFIDENCE_THRESHOLD) = false
  rw [min_eq_right hv1]
  exact decide_eq_false (not_le.2 hvthr)

/-- C8 counterexample: for the minimal Scenario A email the phishing
increments are 0.10 (keyword "urgent") + 0.10 (keyword "verify") + 0.15
(bit.ly domain) + 0.05 (urgency word "urgent") = 0.40 < 0.7, so
`detected = false` — the claimed `confidence ≥ 0.7` and `detected = true`
fail. -/
theorem phishing_scenarioA_counterexample :
    jsIncludes scenarioAEmail.body ("urgent".data) = true ∧
    jsIncludes scenarioAEmail.body ("verify your account".data) = true ∧
    (∃ url ∈ scenarioAEmail.metadata.urls,
      (jsParseURL url).map UrlObj.hostname = some ("bit.ly".data)) ∧
    (detectPhishing scenarioAEmail).confidence = 2/5 ∧
    (detectPhishing scenarioAEmail).detected = false := by
  have hurl : jsParseURL ("https://bit.ly/a".data) =
      some { hostname := ("bit.ly".data), pathname := ("/a".data) } := by decide
  have hsusp : isSuspiciousURL ("https://bit.ly/a".data) = false := by decide
  refine ⟨by decide, by decide, ⟨("https://bit.ly/a".data), by decide, by decide⟩, ?_, ?_⟩
  · refine (detector_result_eval _ (2/5) _ ?_ (by norm_num)
      (by norm_num [CONFIG.THREAT_CONFIDENCE_THRESHOLD])).1
    simp +decide [scenarioAEmail, CONFIG.PHISHING_KEYWORDS, urgencyWords, jsIncludes,
      phishingUrlScore, hurl, hsusp, phishingSpoofScore, getHeader,
      CONFIG.SUSPICIOUS_DOMAINS]
    norm_num
  · refine (detector_result_eval _ (2/5) _ ?_ (by norm_num)
      (by norm_num [CONFIG.THREAT_CONFIDENCE_THRESHOLD])).2
    simp +decide [scenarioAEmail, CONFIG.PHISHING_KEYWORDS, urgencyWords, jsIncludes,
      phishingUrlScore, hurl, hsusp, phishingSpoofScore, getHeader,
      CONFIG.SUSPICIOUS_DOMAINS]
    norm_num

lemma single_le_map_sum {α : Type} (l : List α) (f : α → ℚ)
    (hf : ∀ x ∈ l, 0 ≤ f x) (a : α) (ha : a ∈ l) : f a ≤ (l.map f).sum := by
  refine List.single_le_sum ?_ _ (List.mem_map_of_mem f ha)
  intro x hx
  obtain ⟨y, hy, rfl⟩ := List.mem_map.1 hx
  exact hf y hy

lemma sum_map_ge_two {α : Type} [DecidableEq α] (l : List α) (f : α → ℚ)
    (hf : ∀ x ∈ l, 0 ≤ f x) (a b : α) (ha : a ∈ l) (hb : b ∈ l) (hab : a ≠ b) :
    f a + f b ≤ (l.map f).sum := by
  induction l with
  | nil => cases ha
  | cons c l ih =>
    rw [List.map_cons, List.sum_cons]
    rcases List.mem_cons.1 ha with rfl | ha'
    · have hb' : b ∈ l := by
        rcases List.mem_cons.1 hb with rfl | h
        · exact absurd rfl hab
        · exact h
      have h2 : f b ≤ (l.map f).sum :=
        single_le_map_sum l f (fun x hx => hf x (List.mem_cons_of_mem _ hx)) b hb'
      linarith
    · rcases List.mem_cons.1 hb with rfl | hb'
      · have h2 : f a ≤ (l.map f).sum :=
          single_le_map_sum l f (fun x hx => hf x (List.mem_cons_of_mem _ hx)) a ha'
        linarith
      · have h2 := ih (fun x hx => hf x (List.mem_cons_of_mem _ hx)) ha' hb'
        have hc := hf c (List.mem_cons_self c l)
        linarith

lemma ite_includes_pos (content w : Str) (q : ℚ) (h : w <:+: content) :
    (if jsIncludes content w = true then q else 0) = q := by
  unfold jsIncludes
  rw [decide_eq_true h, if_pos rfl]

lemma ite_includes_lower_pos (content w : Str) (q : ℚ) (hw : jsToLower w = w)
    (h : w <:+: content) :
    (if jsIncludes content (jsToLower w) = true then q else 0) = q := by
  rw [hw]
  exact ite_includes_pos content w q h

lemma infix_of_pref {l1 l2 : Str} (h : l1 <+: l2) : l1 <:+: l2 :=
  List.IsPrefix.isInfix h

lemma infix_of_suff {l1 l2 : Str} (h : l1 <:+ l2) : l1 <:+: l2 :=
  List.IsSuffix.isInfix h

lemma infix_lower_content (w s t : Str) (hw : List.map lowerChar w = w) (h : w <:+: s) :
    w <:+: jsToLower (s ++ t) := by
  unfold jsToLower
  rw [List.map_append]
  refine List.IsInfix.trans ?_ (infix_of_pref (List.prefix_append _ _))
  have h2 := h.map lowerChar
  rwa [hw] at h2

/-- C8 (amended): an email whose body contains "urgent" and "verify your
account" and whose extracted URL set contains a bit.ly URL gets phishing
confidence ≥ 0.40 (0.10 keyword "urgent" + 0.10 keyword "verify" + 0.15
suspicious domain + 0.05 urgency word "urgent"); `detected = true` holds
only when further signals push the confidence to the 0.7 threshold, not
for every such email. -/
theorem phishing_scenarioA_lower_bound (e : Email)
    (hurgent : ("urgent".data) <:+: e.body)
    (hverify : ("verify your account".data) <:+: e.body)
    (hbit : ∃ url ∈ e.metadata.urls,
      (jsParseURL url).map UrlObj.hostname = some ("bit.ly".data)) :
    2/5 ≤ (detectPhishing e).confidence ∧
    ((detectPhishing e).detected = true ↔
      CONFIG.THREAT_CONFIDENCE_THRESHOLD ≤ (detectPhishing e).confidence) := by
  have hu : ("urgent".data) <:+: jsToLower ((e.body ++ [' ']) ++ subjectOrEmpty e) :=
    infix_lower_content _ _ _ (by decide)
      (hurgent.trans (infix_of_pref (List.prefix_append e.body [' '])))
  have hv : ("verify".data) <:+: jsToLower ((e.body ++ [' ']) ++ subjectOrEmpty e) :=
    infix_lower_content _ _ _ (by decide)
      (((infix_of_pref
          (by decide : ("verify".data) <+: ("verify your account".data))).trans
        hverify).trans (infix_of_pref (List.prefix_append e.body [' '])))
  constructor
  · refine le_min (by norm_num) ?_
    have hkw : (1:ℚ)/10 + 1/10 ≤
        (CONFIG.PHISHING_KEYWORDS.map
          (fun kw => if jsIncludes (jsToLower (e.body ++ [' '] ++ subjectOrEmpty e))
            (jsToLower kw) = true then (1:ℚ)/10 else 0)).sum := by
      have h2 := sum_map_ge_two CONFIG.PHISHING_KEYWORDS
        (fun kw => if jsIncludes (jsToLower (e.body ++ [' '] ++ subjectOrEmpty e))
          (jsToLower kw) = true then (1:ℚ)/10 else 0)
        (fun x _ => ite_incr_nonneg _ _ (by norm_num))
        ("urgent".data) ("verify".data) (by decide) (by decide) (by decide)
      dsimp only at h2
      rwa [ite_includes_lower_pos _ _ _ (by decide) hu,
           ite_includes_lower_pos _ _ _ (by decide) hv] at h2
    obtain ⟨url, hmem, hhost⟩ := hbit
    obtain ⟨uo, hp, hh⟩ : ∃ uo, jsParseURL url = some uo ∧ uo.hostname = ("bit.ly".data) := by
      cases hp : jsParseURL url with
      | none => rw [hp] at hhost; cases hhost
      | some uo =>
        rw [hp] at hhost
        exact ⟨uo, rfl, by simpa using hhost⟩
    have hscore : (15:ℚ)/100 ≤ phishingUrlScore url := by
      unfold phishingUrlScore
      rw [hp]
      dsimp only
      have hmem2 : uo.hostname ∈ CONFIG.SUSPICIOUS_DOMAINS := by
        rw [hh]
        decide
      rw [if_pos hmem2]
      exact le_add_of_nonneg_right (ite_incr_nonneg _ _ (by norm_num))
    have hurl2 : (15:ℚ)/100 ≤ (e.metadata.urls.map phishingUrlScore).sum :=
      le_trans hscore
        (single_le_map_sum _ _ (fun x _ => phishingUrlScore_nonneg x) url hmem)
    have hurg : (5:ℚ)/100 ≤
        (urgencyWords.map
          (fun w => if jsIncludes (jsToLower (e.body ++ [' '] ++ subjectOrEmpty e)) w = true
            then (5:ℚ)/100 else 0)).sum := by
      have h3 := single_le_map_sum urgencyWords
        (fun w => if jsIncludes (jsToLower (e.body ++ [' '] ++ subjectOrEmpty e)) w = true
          then (5:ℚ)/100 else 0)
        (fun x _ => ite_incr_nonneg _ _ (by norm_num)) ("urgent".data) (by decide)
      dsimp only at h3
      rwa [ite_includes_pos _ _ _ hu] at h3
    have hsp := phishingSpoofScore_nonneg e
    linarith [hkw, hurl2, hurg, hsp]
  · have hdet : (detectPhishing e).detected =
        decide (CONFIG.THREAT_CONFIDENCE_THRESHOLD ≤ (detectPhishing e).confidence) := rfl
    rw [hdet, decide_eq_true_eq]

/-- Witness for the amended C8 theorem at a concrete input. -/
theorem phishing_scenarioA_lower_bound_witness :
    (("urgent".data) <:+: scenarioAEmail.body) ∧
    (("verify your account".data) <:+: scenarioAEmail.body) ∧
    (∃ url ∈ scenarioAEmail.metadata.urls,
      (jsParseURL url).map UrlObj.hostname = some ("bit.ly".data)) ∧
    2/5 ≤ (detectPhishing scenarioAEmail).confidence :=
  ⟨by decide, by decide, ⟨("https://bit.ly/a".data), by decide, by decide⟩,
   (phishing_scenarioA_lower_bound scenarioAEmail (by decide) (by decide)
     ⟨("https://bit.ly/a".data), by decide, by decide⟩).1⟩

lemma jsSplit_ne_nil (sep : Char) (s : Str) : jsSplit sep s ≠ [] := by
  cases s with
  | nil => simp [jsSplit]
  | cons c cs =>
    unfold jsSplit
    cases jsSplit sep cs with
    | nil => simp
    | cons l ls => by_cases hc : c = sep <;> simp [hc]

lemma jsSplit_exists_cons (sep : Char) (s : Str) :
    ∃ l ls, jsSplit sep s = l :: ls := by
  cases h : jsSplit sep s with
  | nil => exact absurd h (jsSplit_ne_nil sep s)
  | cons l ls => exact ⟨l, ls, rfl⟩

lemma jsSplit_cons_eq (sep c : Char) (cs : Str) (l : Str) (ls : List Str)
    (h : jsSplit sep cs = l :: ls) :
    jsSplit sep (c :: cs) = if c = sep then [] :: l :: ls else (c :: l) :: ls := by
  unfold jsSplit
  rw [h]

lemma jsSplit_append_sep (sep : Char) (xs ys : Str) :
    jsSplit sep (xs ++ sep :: ys) = jsSplit sep xs ++ jsSplit sep ys := by
  induction xs with
  | nil =>
    simp only [List.nil_append]
    obtain ⟨l, ls, h⟩ := jsSplit_exists_cons sep ys
    rw [jsSplit_cons_eq sep sep ys l ls h, if_pos rfl, h]
    rfl
  | cons c xs ih =>
    obtain ⟨l, ls, h⟩ := jsSplit_exists_cons sep xs
    have h2 : jsSplit sep (xs ++ sep :: ys) = l :: (ls ++ jsSplit sep ys) := by
      rw [ih, h, List.cons_append]
    show jsSplit sep (c :: (xs ++ sep :: ys)) = jsSplit sep (c :: xs) ++ jsSplit sep ys
    rw [jsSplit_cons_eq sep c _ _ _ h2, jsSplit_cons_eq sep c xs l ls h]
    by_cases hc : c = sep <;> simp [hc]

lemma jsSplit_of_not_mem (sep : Char) (l : Str) (h : sep ∉ l) : jsSplit sep l = [l] := by
  induction l with
  | nil => rfl
  | cons c cs ih =>
    have hc : c ≠ sep := fun hh => h (hh ▸ List.mem_cons_self c cs)
    have hcs : sep ∉ cs := fun hh => h (List.mem_cons_of_mem c hh)
    rw [jsSplit_cons_eq sep c cs cs [] (ih hcs), if_neg hc]

lemma sep_not_mem_of_mem_jsSplit (sep : Char) (s : Str) : ∀ x ∈ jsSplit sep s, sep ∉ x := by
  induction s with
  | nil =>
    intro x hx
    simp [jsSplit] at hx
    subst hx
    simp
  | cons c cs ih =>
    intro x hx
    obtain ⟨l, ls, h⟩ := jsSplit_exists_cons sep cs
    rw [jsSplit_cons_eq sep c cs l ls h] at hx
    have ihl := ih
    rw [h] at ihl
    by_cases hc : c = sep
    · rw [if_pos hc] at hx
      rcases List.mem_cons.1 hx with rfl | hx'
      · simp
      · exact ihl x hx'
    · rw [if_neg hc] at hx
      rcases List.mem_cons.1 hx with rfl | hx'
      · intro hmem
        rcases List.mem_cons.1 hmem with rfl | hmem'
        · exact hc rfl
        · exact ihl l (List.mem_cons_self l ls) hmem'
      · exact ihl x (List.mem_cons_of_mem l hx')

lemma intercalate_cons₂ (c : Char) (a b : Str) (t : List Str) :
    List.intercalate [c] (a :: b :: t) = a ++ c :: List.intercalate [c] (b :: t) := by
  simp [List.intercalate, List.intersperse]

lemma trimEnd_cons (c : Char) (cs : Str) :
    trimEnd (c :: cs) = if trimEnd cs = [] ∧ isWsChar c then [] else c :: trimEnd cs := rfl

lemma trimEnd_prefix_self (s : Str) : trimEnd s <+: s := by
  induction s with
  | nil => exact List.prefix_refl []
  | cons c cs ih =>
    rw [trimEnd_cons]
    split
    · exact List.nil_prefix
    · exact List.cons_prefix_cons.2 ⟨rfl, ih⟩

lemma trimEnd_idem (s : Str) : trimEnd (trimEnd s) = trimEnd s := by
  induction s with
  | nil => rfl
  | cons c cs ih =>
    rw [trimEnd_cons]
    by_cases h : trimEnd cs = [] ∧ isWsChar c = true
    · rw [if_pos h]
      rfl
    · rw [if_neg h, trimEnd_cons, ih]
      rw [if_neg h]

lemma dropWhile_head_not (p : Char → Bool) (l : Str) (x : Char)
    (h : (l.dropWhile p).head? = some x) : p x = false := by
  induction l with
  | nil => simp [List.dropWhile] at h
  | cons c cs ih =>
    by_cases hc : p c = true
    · rw [List.dropWhile_cons_of_pos hc] at h
      exact ih h
    · rw [List.dropWhile_cons_of_neg hc] at h
      simp at h
      subst h
      exact Bool.eq_false_iff.2 hc

lemma trimStart_idem (s : Str) : trimStart (trimStart s) = trimStart s := by
  unfold trimStart
  cases h : s.dropWhile isWsChar with
  | nil => simp
  | cons c cs =>
    have hc : isWsChar c = false := dropWhile_head_not _ s c (by rw [h]; rfl)
    rw [List.dropWhile_cons_of_neg (by simp [hc])]

lemma jsTrim_idem (s : Str) : jsTrim (jsTrim s) = jsTrim s := by
  unfold jsTrim
  have h1 : trimStart (trimEnd (trimStart s)) = trimEnd (trimStart s) := by
    cases h : trimEnd (trimStart s) with
    | nil => rfl
    | cons c cs =>
      have hpre := trimEnd_prefix_self (trimStart s)
      rw [h] at hpre
      obtain ⟨t, ht⟩ := hpre
      have hc : isWsChar c = false := by
        apply dropWhile_head_not isWsChar s
        show (trimStart s).head? = some c
        rw [← ht]
        rfl
      unfold trimStart
      rw [List.dropWhile_cons_of_neg (by simp [hc])]
  rw [h1, trimEnd_idem]

lemma find?_pred {α : Type} (p : α → Bool) (l : List α) (a : α)
    (h : l.find? p = some a) : p a = true := List.find?_some h

lemma lowerChar_spec (c : Char) :
    (c ∈ upperLetters ∧ lowerChar c ∈ lowerLetters) ∨ lowerChar c = c := by
  unfold lowerChar
  cases h : lowerPairs.find? (fun p => decide (p.1 = c)) with
  | none => exact Or.inr rfl
  | some p =>
    left
    have hmem := List.mem_of_find?_eq_some h
    have h2 := find?_pred (fun p : Char × Char => decide (p.1 = c)) lowerPairs p h
    have hc : p.1 = c := of_decide_eq_true h2
    constructor
    · rw [← hc]
      exact (by decide : ∀ p ∈ lowerPairs, p.1 ∈ upperLetters) p hmem
    · exact (by decide : ∀ p ∈ lowerPairs, p.2 ∈ lowerLetters) p hmem

lemma lowerChar_idem (c : Char) : lowerChar (lowerChar c) = lowerChar c := by
  rcases lowerChar_spec c with ⟨_, hlow⟩ | heq
  · exact (by decide : ∀ d ∈ lowerLetters, lowerChar d = d) _ hlow
  · rw [heq]
    exact heq

lemma jsToLower_idem (s : Str) : jsToLower (jsToLower s) = jsToLower s := by
  unfold jsToLower
  rw [List.map_map]
  exact List.map_congr_left (fun x _ => lowerChar_idem x)

lemma isWsChar_lowerChar (c : Char) : isWsChar (lowerChar c) = isWsChar c := by
  rcases lowerChar_spec c with ⟨hup, hlow⟩ | heq
  · rw [(by decide : ∀ d ∈ lowerLetters, isWsChar d = false) _ hlow,
        (by decide : ∀ d ∈ upperLetters, isWsChar d = false) _ hup]
  · rw [heq]

lemma trimStart_jsToLower (s : Str) : trimStart (jsToLower s) = jsToLower (trimStart s) := by
  unfold trimStart jsToLower
  rw [List.dropWhile_map]
  have hfun : (isWsChar ∘ lowerChar) = isWsChar := funext fun c => isWsChar_lowerChar c
  rw [hfun]

lemma trimEnd_jsToLower (s : Str) : trimEnd (jsToLower s) = jsToLower (trimEnd s) := by
  induction s with
  | nil => rfl
  | cons c cs ih =>
    show trimEnd (lowerChar c :: jsToLower cs) = jsToLower (trimEnd (c :: cs))
    rw [trimEnd_cons, trimEnd_cons, ih, isWsChar_lowerChar]
    by_cases h : trimEnd cs = [] ∧ isWsChar c = true
    · rw [if_pos ⟨by rw [h.1]; rfl, h.2⟩, if_pos h]
      rfl
    · have h2 : ¬ (jsToLower (trimEnd cs) = [] ∧ isWsChar c = true) := by
        intro hcontra
        exact h ⟨List.map_eq_nil_iff.1 hcontra.1, hcontra.2⟩
      rw [if_neg h2, if_neg h]
      rfl

lemma jsTrim_jsToLower (s : Str) : jsTrim (jsToLower s) = jsToLower (jsTrim s) := by
  unfold jsTrim
  rw [trimStart_jsToLower, trimEnd_jsToLower]

/-- Normalized header keys are lower-cased and trimmed. -/
lemma normalizeHeaders_keys (headers : List (Str × Str)) :
    ∀ p ∈ normalizeHeaders headers, jsToLower p.1 = p.1 ∧ jsTrim p.1 = p.1 := by
  intro p hp
  obtain ⟨q, _, rfl⟩ := List.mem_map.1 hp
  constructor
  · show jsToLower (jsTrim (jsToLower q.1)) = jsTrim (jsToLower q.1)
    rw [← jsTrim_jsToLower, jsToLower_idem]
  · exact jsTrim_idem _

lemma notQuoted_nil : notQuoted [] := by
  unfold notQuoted
  decide

lemma head_trimEnd (t : Str) : (trimEnd t).head? = t.head? ∨ trimEnd t = [] := by
  cases t with
  | nil => exact Or.inr rfl
  | cons c cs =>
    rw [trimEnd_cons]
    split
    · exact Or.inr rfl
    · exact Or.inl rfl

lemma notQuoted_iff (l : Str) : notQuoted l ↔ ¬ ((trimStart l).head? = some '>') := by
  unfold notQuoted jsTrim
  constructor
  · intro h hc
    apply h
    obtain ⟨t, ht⟩ : ∃ t, trimStart l = '>' :: t := by
      cases hl : trimStart l with
      | nil => rw [hl] at hc; cases hc
      | cons a t =>
        rw [hl] at hc
        simp at hc
        exact ⟨t, by rw [hc]⟩
    rw [ht, trimEnd_cons]
    rw [if_neg (by simp [isWsChar])]
    rfl
  · intro h hc
    rcases head_trimEnd (trimStart l) with he | he
    · exact h (he ▸ hc)
    · rw [he] at hc
      cases hc

lemma notQuoted_ws_cons (c : Char) (l : Str) (hw : isWsChar c = true) :
    notQuoted (c :: l) ↔ notQuoted l := by
  rw [notQuoted_iff, notQuoted_iff]
  unfold trimStart
  rw [List.dropWhile_cons_of_pos hw]

lemma firstNonWs_prefix_eq (l' l : Str) (h : l' <+: l) :
    trimStart l' = [] ∨ (trimStart l').head? = (trimStart l).head? := by
  unfold trimStart
  induction l' generalizing l with
  | nil => exact Or.inl rfl
  | cons c t' ih =>
    cases l with
    | nil => cases List.prefix_nil.1 h
    | cons b t =>
      obtain ⟨rfl, ht⟩ := List.cons_prefix_cons.1 h
      by_cases hw : isWsChar c = true
      · rw [List.dropWhile_cons_of_pos hw, List.dropWhile_cons_of_pos hw]
        exact ih t ht
      · rw [List.dropWhile_cons_of_neg hw, List.dropWhile_cons_of_neg hw]
        exact Or.inr rfl

lemma notQuoted_mono (l' l : Str) (h : l' <+: l) (hP : notQuoted l) : notQuoted l' := by
  rw [notQuoted_iff] at *
  rcases firstNonWs_prefix_eq l' l h with h0 | heq
  · rw [h0]
    simp
  · rw [heq]
    exact hP

lemma collapseNlGo_cons (k : Nat) (c : Char) (cs : Str) :
    collapseNlGo k (c :: cs) =
      if c = '\n' then
        (if k ≥ 2 then collapseNlGo 2 cs else c :: collapseNlGo (k + 1) cs)
      else c :: collapseNlGo 0 cs := rfl

lemma maxNlRunOk_cons (k : Nat) (c : Char) (cs : Str) :
    maxNlRunOk k (c :: cs) =
      if c = '\n' then (decide (k + 1 ≤ 2) && maxNlRunOk (k + 1) cs)
      else maxNlRunOk 0 cs := rfl

lemma collapseNlGo_append_free (pre cs : Str) (k : Nat) (hfree : ('\n') ∉ pre) :
    collapseNlGo k (pre ++ cs) = pre ++ collapseNlGo (if pre = [] then k else 0) cs := by
  induction pre generalizing k with
  | nil => simp
  | cons c pre ih =>
    have hc : c ≠ '\n' := fun h => hfree (h ▸ List.mem_cons_self c pre)
    have hfree2 : ('\n') ∉ pre := fun h => hfree (List.mem_cons_of_mem c h)
    show collapseNlGo k (c :: (pre ++ cs)) = (c :: pre) ++ collapseNlGo _ cs
    rw [collapseNlGo_cons, if_neg hc, ih 0 hfree2, ite_self]
    simp

/-- Every line of the collapsed re-joined clean lines is one of the
clean lines or empty, hence not a quoted line. -/
lemma linesP_collapse_intercalate :
    ∀ (L : List Str) (k : Nat), (∀ l ∈ L, ('\n') ∉ l ∧ notQuoted l) →
    ∀ x ∈ jsSplit '\n' (collapseNlGo k (List.intercalate ['\n'] L)), notQuoted x := by
  intro L
  induction L with
  | nil =>
    intro k _ x hx
    simp [List.intercalate, collapseNlGo, jsSplit] at hx
    subst hx
    exact notQuoted_nil
  | cons l L ih =>
    intro k hall x hx
    cases L with
    | nil =>
      have hint : List.intercalate ['\n'] [l] = l := by simp [List.intercalate]
      rw [hint] at hx
      have hfree := (hall l (List.mem_cons_self l _)).1
      have hcol : collapseNlGo k l = l := by
        have hb := collapseNlGo_append_free l [] k hfree
        simp at hb
        simpa [collapseNlGo] using hb
      rw [hcol, jsSplit_of_not_mem _ _ hfree] at hx
      simp at hx
      subst hx
      exact (hall _ (List.mem_cons_self _ _)).2
    | cons l₂ L₂ =>
      rw [intercalate_cons₂] at hx
      have hfree := (hall l (List.mem_cons_self l _)).1
      rw [collapseNlGo_append_free l _ k hfree] at hx
      by_cases hle : l = []
      · subst hle
        rw [if_pos rfl, List.nil_append, collapseNlGo_cons, if_pos rfl] at hx
        by_cases hk : k ≥ 2
        · rw [if_pos hk] at hx
          exact ih 2 (fun y hy => hall y (List.mem_cons_of_mem _ hy)) x hx
        · rw [if_neg hk] at hx
          obtain ⟨H, T, hsp⟩ :=
            jsSplit_exists_cons '\n' (collapseNlGo (k + 1) (List.intercalate ['\n'] (l₂ :: L₂)))
          rw [jsSplit_cons_eq _ _ _ _ _ hsp, if_pos rfl] at hx
          rcases List.mem_cons.1 hx with rfl | hx2
          · exact notQuoted_nil
          · exact ih (k + 1) (fun y hy => hall y (List.mem_cons_of_mem _ hy)) x
              (by rw [hsp]; exact hx2)
      · rw [if_neg hle, collapseNlGo_cons, if_pos rfl,
            if_neg (by omega : ¬ (0:Nat) ≥ 2)] at hx
        rw [jsSplit_append_sep, jsSplit_of_not_mem _ _ hfree] at hx
        rcases List.mem_append.1 hx with hx2 | hx2
        · simp at hx2
          subst hx2
          exact (hall _ (List.mem_cons_self _ _)).2
        · exact ih 1 (fun y hy => hall y (List.mem_cons_of_mem _ hy)) x hx2

lemma linesP_trimStart : ∀ (s : Str), (∀ x ∈ jsSplit '\n' s, notQuoted x) →
    ∀ x ∈ jsSplit '\n' (trimStart s), notQuoted x := by
  intro s
  unfold trimStart
  induction s with
  | nil => intro h x hx; exact h x hx
  | cons c cs ih =>
    intro h x hx
    by_cases hw : isWsChar c = true
    · rw [List.dropWhile_cons_of_pos hw] at hx
      refine ih ?_ x hx
      intro y hy
      obtain ⟨H, T, hsp⟩ := jsSplit_exists_cons '\n' cs
      by_cases hc : c = '\n'
      · have h2 := h
        rw [jsSplit_cons_eq _ _ _ _ _ hsp, if_pos hc] at h2
        exact h2 y (List.mem_cons_of_mem _ (by rw [hsp] at hy; exact hy))
      · have h2 := h
        rw [jsSplit_cons_eq _ _ _ _ _ hsp, if_neg hc] at h2
        rw [hsp] at hy
        rcases List.mem_cons.1 hy with rfl | hy2
        · exact (notQuoted_ws_cons c y hw).1 (h2 _ (List.mem_cons_self _ _))
        · exact h2 y (List.mem_cons_of_mem _ hy2)
    · rw [List.dropWhile_cons_of_neg hw] at hx
      exact h x hx

/-- Trailing trim only shortens the last line (and may drop trailing
empty lines): the surviving lines stay non-quoted, and the first line of
the trimmed string is a prefix of the first line of the original. -/
lemma linesP_trimEnd_aux : ∀ (s : Str),
    ((∀ x ∈ (jsSplit '\n' s).tail, notQuoted x) →
      ∀ x ∈ (jsSplit '\n' (trimEnd s)).tail, notQuoted x) ∧
    (∀ H H2, (jsSplit '\n' (trimEnd s)).head? = some H →
      (jsSplit '\n' s).head? = some H2 → H <+: H2) := by
  intro s
  induction s with
  | nil =>
    constructor
    · intro h x hx
      exact h x hx
    · intro H H2 h1 h2
      simp [jsSplit, trimEnd] at h1 h2
      subst h1
      subst h2
      exact List.prefix_refl _
  | cons c cs ih =>
    obtain ⟨H₀, T₀, hsp₀⟩ := jsSplit_exists_cons '\n' (trimEnd cs)
    obtain ⟨H₁, T₁, hsp₁⟩ := jsSplit_exists_cons '\n' cs
    by_cases hdrop : trimEnd cs = [] ∧ isWsChar c = true
    · have ht : trimEnd (c :: cs) = [] := by rw [trimEnd_cons, if_pos hdrop]
      rw [ht]
      constructor
      · intro h x hx
        simp [jsSplit] at hx
      · intro H H2 h1 h2
        simp [jsSplit] at h1
        subst h1
        exact List.nil_prefix
    · have ht : trimEnd (c :: cs) = c :: trimEnd cs := by rw [trimEnd_cons, if_neg hdrop]
      rw [ht]
      by_cases hc : c = '\n'
      · rw [jsSplit_cons_eq _ _ _ _ _ hsp₀, if_pos hc, jsSplit_cons_eq _ _ _ _ _ hsp₁,
          if_pos hc]
        constructor
        · intro h x hx
          have hall : ∀ y ∈ jsSplit '\n' (trimEnd cs), notQuoted y := by
            intro y hy
            rw [hsp₀] at hy
            rcases List.mem_cons.1 hy with rfl | hy2
            · have hpre := ih.2 y H₁ (by rw [hsp₀]; rfl) (by rw [hsp₁]; rfl)
              exact notQuoted_mono _ _ hpre (h H₁ (List.mem_cons_self _ _))
            · refine ih.1 ?_ y (by rw [hsp₀]; exact hy2)
              intro z hz
              rw [hsp₁] at hz
              exact h z (List.mem_cons_of_mem _ hz)
          exact hall x (by rw [hsp₀]; exact hx)
        · intro H H2 h1 h2
          simp at h1 h2
          subst h1
          subst h2
          exact List.prefix_refl _
      · rw [jsSplit_cons_eq _ _ _ _ _ hsp₀, if_neg hc, jsSplit_cons_eq _ _ _ _ _ hsp₁,
          if_neg hc]
        constructor
        · intro h x hx
          refine ih.1 ?_ x (by rw [hsp₀]; exact hx)
          intro z hz
          rw [hsp₁] at hz
          exact h z hz
        · intro H H2 h1 h2
          simp at h1 h2
          subst h1
          subst h2
          exact List.cons_prefix_cons.2
            ⟨rfl, ih.2 H₀ H₁ (by rw [hsp₀]; rfl) (by rw [hsp₁]; rfl)⟩

lemma linesP_trimEnd (s : Str) (h : ∀ x ∈ jsSplit '\n' s, notQuoted x) :
    ∀ x ∈ jsSplit '\n' (trimEnd s), notQuoted x := by
  intro x hx
  obtain ⟨H₀, T₀, hsp₀⟩ := jsSplit_exists_cons '\n' (trimEnd s)
  obtain ⟨H₁, T₁, hsp₁⟩ := jsSplit_exists_cons '\n' s
  rw [hsp₀] at hx
  rcases List.mem_cons.1 hx with rfl | hx2
  · have hpre := (linesP_trimEnd_aux s).2 x H₁ (by rw [hsp₀]; rfl) (by rw [hsp₁]; rfl)
    exact notQuoted_mono _ _ hpre (h H₁ (by rw [hsp₁]; exact List.mem_cons_self _ _))
  · refine (linesP_trimEnd_aux s).1 ?_ x (by rw [hsp₀]; exact hx2)
    intro z hz
    rw [hsp₁] at hz
    exact h z (by rw [hsp₁]; exact List.mem_cons_of_mem _ hz)

/-- No line of a cleaned body has a trimmed form starting with `>`. -/
lemma cleanEmailBody_lines_notQuoted (body : Str) :
    ∀ line ∈ jsSplit '\n' (cleanEmailBody body), notQuoted line := by
  unfold cleanEmailBody jsTrim
  apply linesP_trimEnd
  apply linesP_trimStart
  apply linesP_collapse_intercalate
  intro l hl
  constructor
  · exact sep_not_mem_of_mem_jsSplit '\n' body l (List.mem_of_mem_filter hl)
  · have hfilt := List.of_mem_filter hl
    simp only [Bool.not_eq_true'] at hfilt
    exact of_decide_eq_false hfilt

lemma maxNlRunOk_collapseNlGo : ∀ (cs : Str) (k : Nat), k ≤ 2 →
    maxNlRunOk k (collapseNlGo k cs) = true := by
  intro cs
  induction cs with
  | nil => intro k _; rfl
  | cons c cs ih =>
    intro k hk
    rw [collapseNlGo_cons]
    by_cases hc : c = '\n'
    · rw [if_pos hc]
      by_cases hk2 : k ≥ 2
      · rw [if_pos hk2]
        have hk3 : k = 2 := by omega
        subst hk3
        exact ih 2 (le_refl 2)
      · rw [if_neg hk2]
        have hk1 : k + 1 ≤ 2 := by omega
        subst hc
        rw [maxNlRunOk_cons, if_pos rfl, decide_eq_true hk1, ih (k + 1) hk1]
        rfl
    · rw [if_neg hc, maxNlRunOk_cons, if_neg hc]
      exact ih 0 (by omega)

lemma maxNlRunOk_suffix : ∀ (s : Str) (k : Nat), maxNlRunOk k s = true →
    ∀ t, t <:+ s → ∃ k2, maxNlRunOk k2 t = true := by
  intro s
  induction s with
  | nil =>
    intro k hk t ht
    rw [List.suffix_nil.1 ht]
    exact ⟨0, rfl⟩
  | cons c cs ih =>
    intro k hk t ht
    rcases List.suffix_cons_iff.1 ht with rfl | ht2
    · exact ⟨k, hk⟩
    · rw [maxNlRunOk_cons] at hk
      by_cases hc : c = '\n'
      · rw [if_pos hc] at hk
        rw [Bool.and_eq_true] at hk
        exact ih (k + 1) hk.2 t ht2
      · rw [if_neg hc] at hk
        exact ih 0 hk t ht2

lemma maxNlRunOk_no_triple (s : Str) (k : Nat) (h : maxNlRunOk k s = true) :
    ¬ ((['\n', '\n', '\n'] : Str) <+: s) := by
  intro hp
  obtain ⟨t, ht⟩ := hp
  rw [← ht] at h
  rw [show (['\n', '\n', '\n'] : Str) ++ t = '\n' :: '\n' :: '\n' :: t from rfl] at h
  rw [maxNlRunOk_cons, if_pos rfl, Bool.and_eq_true] at h
  obtain ⟨_, hb⟩ := h
  rw [maxNlRunOk_cons, if_pos rfl, Bool.and_eq_true] at hb
  obtain ⟨_, hd⟩ := hb
  rw [maxNlRunOk_cons, if_pos rfl, Bool.and_eq_true] at hd
  obtain ⟨he, _⟩ := hd
  have := of_decide_eq_true he
  omega

lemma no_triple_of_maxNlRunOk (s : Str) (h : maxNlRunOk 0 s = true) :
    ¬ ((['\n', '\n', '\n'] : Str) <:+: s) := by
  intro hinf
  obtain ⟨t, hpre, hsuf⟩ := List.infix_iff_prefix_suffix.1 hinf
  obtain ⟨k2, hk2⟩ := maxNlRunOk_suffix s 0 h t hsuf
  exact maxNlRunOk_no_triple t k2 hk2 hpre

/-- The cleaned body never contains three consecutive newlines, hence
no run of 3 or more consecutive blank lines. -/
lemma cleanEmailBody_no_triple_newline (body : Str) :
    ¬ ((['\n', '\n', '\n'] : Str) <:+: cleanEmailBody body) := by
  unfold cleanEmailBody jsTrim trimStart
  intro h
  have h1 := h.trans (infix_of_pref (trimEnd_prefix_self _))
  have h2 := h1.trans (infix_of_suff (List.dropWhile_suffix isWsChar))
  exact no_triple_of_maxNlRunOk _ (maxNlRunOk_collapseNlGo _ 0 (by omega)) h2

lemma dedupList_nodup (l : List Str) : (dedupList l).Nodup := by
  suffices h : ∀ (l acc : List Str), acc.Nodup →
      (l.foldl (fun acc x => if x ∈ acc then acc else acc ++ [x]) acc).Nodup by
    exact h l [] List.nodup_nil
  intro l
  induction l with
  | nil => intro acc h; exact h
  | cons x l ih =>
    intro acc hacc
    rw [List.foldl_cons]
    by_cases hx : x ∈ acc
    · rw [if_pos hx]
      exact ih acc hacc
    · rw [if_neg hx]
      refine ih _ ?_
      rw [List.nodup_append]
      refine ⟨hacc, List.nodup_singleton x, ?_⟩
      intro y hy hmem
      simp at hmem
      subst hmem
      exact hx hy

lemma dedupList_subset (l : List Str) : ∀ x ∈ dedupList l, x ∈ l := by
  suffices h : ∀ (l acc : List Str),
      ∀ x ∈ l.foldl (fun acc x => if x ∈ acc then acc else acc ++ [x]) acc,
        x ∈ acc ∨ x ∈ l by
    intro x hx
    rcases h l [] x hx with h0 | h0
    · cases h0
    · exact h0
  intro l
  induction l with
  | nil => intro acc x hx; exact Or.inl hx
  | cons y l ih =>
    intro acc x hx
    rw [List.foldl_cons] at hx
    by_cases hy : y ∈ acc
    · rw [if_pos hy] at hx
      rcases ih acc x hx with h0 | h0
      · exact Or.inl h0
      · exact Or.inr (List.mem_cons_of_mem _ h0)
    · rw [if_neg hy] at hx
      rcases ih _ x hx with h0 | h0
      · rcases List.mem_append.1 h0 with h1 | h1
        · exact Or.inl h1
        · simp at h1
          subst h1
          exact Or.inr (List.mem_cons_self _ _)
      · exact Or.inr (List.mem_cons_of_mem _ h0)

lemma domainOfItem_lower (item d : Str) (h : domainOfItem item = some d) :
    jsToLower d = d := by
  unfold domainOfItem at h
  by_cases hat : jsIncludes item ("@".data) = true
  · rw [if_pos hat] at h
    cases h2 : (jsSplit '@' item).get? 1 with
    | none => rw [h2] at h; cases h
    | some dd =>
      rw [h2] at h
      dsimp only at h
      by_cases hdd : dd = []
      · rw [if_pos hdd] at h
        cases h
      · rw [if_neg hdd] at h
        injection h with h3
        rw [← h3]
        exact jsToLower_idem _
  · rw [if_neg hat] at h
    cases h2 : jsParseURL item with
    | none => rw [h2] at h; cases h
    | some u =>
      rw [h2] at h
      dsimp only at h
      by_cases hu : u.hostname = []
      · rw [if_pos hu] at h
        cases h
      · rw [if_neg hu] at h
        injection h with h3
        rw [← h3]
        exact jsToLower_idem _

/-- C9: every enriched ParsedEmail satisfies the invariants: header
keys are lower-cased and trimmed; the cleaned body contains no line
whose trimmed form starts with `>` and no run of three consecutive
newlines (hence no run of 3 or more consecutive blank lines); and the
derived domains metadata is de-duplicated and lower-cased. -/
theorem enrichEmailData_invariants (e : Email) :
    (∀ p ∈ (enrichEmailData e).headers, jsToLower p.1 = p.1 ∧ jsTrim p.1 = p.1) ∧
    (∀ line ∈ jsSplit '\n' (enrichEmailData e).body,
      ¬ ((jsTrim line).head? = some '>')) ∧
    (¬ ((['\n', '\n', '\n'] : Str) <:+: (enrichEmailData e).body)) ∧
    (enrichEmailData e).metadata.domains.Nodup ∧
    (∀ d ∈ (enrichEmailData e).metadata.domains, jsToLower d = d) := by
  refine ⟨normalizeHeaders_keys e.headers, ?_, ?_, ?_, ?_⟩
  · exact cleanEmailBody_lines_notQuoted e.body
  · exact cleanEmailBody_no_triple_newline e.body
  · exact dedupList_nodup _
  · intro d hd
    obtain ⟨item, _, hsome⟩ := List.mem_filterMap.1 (dedupList_subset _ d hd)
    exact domainOfItem_lower item d hsome
